import Mathlib

/-! Genji engine core: transactions of `Database`, document encoding and the
ALTER TABLE runners.

A shallow embedding of

* `internal/database/database.go`: `Begin`, `BeginTx`, `beginTx`, `Close`,
  `closeDatabase`, `GetAttachedTx`, `Catalog`, `releaseAttachedTx`;
* `internal/query/statement/alter.go`: `AlterTableRenameStmt.Run` and
  `AlterTableAddFieldStmt.Run`;
* the encoding of a document against a table schema that
  `internal/database/encoding_test.go` exercises.

Go methods on `*Database` become functions from a `Database` value to an
`Outcome`: either the call returns with the new database value and its Go
return value, or it is suspended on a lock that is held (`Outcome.blocked`).
Every lock of the struct is a field, so acquiring and releasing are explicit.
-/

namespace database

/-! ## Errors -/

/-- Go `error` values: `errors.New(msg)`, `errors.Wrap(cause, msg)` and
`errs.AlreadyExistsError{Name}` are built in the two packages;
`ConstraintViolation` is the error kind the specification gives for a
document that breaks a constraint of its schema. -/
inductive Err where
  | New (msg : String) : Err
  | Wrap (cause : Err) (msg : String) : Err
  | AlreadyExistsError (Name : String) : Err
  | ConstraintViolation (field : String) (kind : String) : Err
deriving DecidableEq, Repr

deriving instance DecidableEq for Except

/-! ## Locks -/

/-- A `sync.Mutex`: `true` when held. -/
abbrev Mutex := Bool

/-- A `sync.RWMutex`: whether the writer side is held, and the number of
readers holding it. -/
structure RWMutex where
  writer : Bool
  readers : Nat
deriving DecidableEq, Repr

/-! ## Transactions -/

/-- A `*Catalog` pointer: `none` is `nil`, `some a` the catalog at address `a`. -/
abbrev CatalogPtr := Option Nat

/-- The two sessions of `kv.Store`: `NewSnapshotSession` and `NewBatchSession`. -/
inductive Session where
  | Snapshot : Session
  | Batch : Session
deriving DecidableEq, Repr

/-- The callbacks `database.go` appends to a transaction's hook lists. The only
one is the method value `db.releaseAttachedTx`. -/
inductive Hook where
  | releaseAttachedTx : Hook
deriving DecidableEq, Repr

/-- `TxOptions` (database.go:69). -/
structure TxOptions where
  ReadOnly : Bool
  Attached : Bool
deriving DecidableEq, Repr

/-- The fields of `Transaction` that `beginTx` sets (database.go:300-318).
`WriteTxMu` is `true` when the field points to `db.writetxmu` and `false` when
it is nil. `db` and `Store` are back pointers and `TxStart` is the wall clock:
they are left out. -/
structure Transaction where
  Session : Session
  Writable : Bool
  ID : Nat
  Catalog : CatalogPtr
  WriteTxMu : Bool
  OnRollbackHooks : List Hook
  OnCommitHooks : List Hook
deriving DecidableEq, Repr

/-! ## The database -/

/-- The `Database` struct (database.go:23). `TransactionIDs` is a `uint64`,
kept below `2 ^ 64` by `beginTx`. `closeOnce` is the done flag of the
`sync.Once`. `closeRuns` is instrumentation, absent from the Go struct: it
counts how many times the body of `closeDatabase` was entered. -/
structure Database where
  catalogMu : RWMutex
  catalog : CatalogPtr
  attachedTransaction : Option Transaction
  attachedTxMu : Mutex
  txmu : RWMutex
  writetxmu : Mutex
  TransactionIDs : Nat
  closeOnce : Bool
  closeRuns : Nat
deriving DecidableEq, Repr

/-- How a call on the database ends: it returns `val` leaving the database as
`db`, or it is suspended on a held lock and has not returned. -/
inductive Outcome (α : Type) where
  | blocked : Outcome α
  | returned (db : Database) (val : α) : Outcome α
deriving DecidableEq, Repr

/-- The struct literal of `New` (database.go:145): every lock free, no attached
transaction, no catalog yet, counter zero. `New` calls `db.Begin(true)` on it. -/
def zero : Database :=
  { catalogMu := { writer := false, readers := 0 }
    catalog := none
    attachedTransaction := none
    attachedTxMu := false
    txmu := { writer := false, readers := 0 }
    writetxmu := false
    TransactionIDs := 0
    closeOnce := false
    closeRuns := 0 }

/-- The zero value `new(TxOptions)` / `&TxOptions{}`. -/
def TxOptions.zero : TxOptions := { ReadOnly := false, Attached := false }

/-- `Database.Catalog` (database.go:323): read the pointer under the read side
of `catalogMu`. The read lock is taken and dropped inside the call. -/
def Catalog (db : Database) : Outcome CatalogPtr :=
  if db.catalogMu.writer then Outcome.blocked
  else Outcome.returned db db.catalog

/-- `Database.SetCatalog` (database.go:330). -/
def SetCatalog (db : Database) (c : CatalogPtr) : Outcome Unit :=
  if db.catalogMu.writer || decide (0 < db.catalogMu.readers) then Outcome.blocked
  else Outcome.returned { db with catalog := c } ()

/-- `atomic.AddUint64(&db.TransactionIDs, 1)`: the new value, wrapping at `2 ^ 64`. -/
def addUint64 (n : Nat) (delta : Nat) : Nat := (n + delta) % 2 ^ 64

/-- `Database.releaseAttachedTx` (database.go:336). -/
def releaseAttachedTx (db : Database) : Outcome Unit :=
  if db.attachedTxMu then Outcome.blocked
  else
    if db.attachedTransaction.isSome then
      Outcome.returned { db with attachedTransaction := none } ()
    else
      Outcome.returned db ()

/-- `Database.beginTx` (database.go:288): creates a transaction without locks. -/
def beginTx (db : Database) (opts : Option TxOptions) :
    Outcome (Except Err Transaction) :=
  let opts := opts.getD TxOptions.zero
  let sess := if opts.ReadOnly then Session.Snapshot else Session.Batch
  let id := addUint64 db.TransactionIDs 1
  let db := { db with TransactionIDs := id }
  match Catalog db with
  | Outcome.blocked => Outcome.blocked
  | Outcome.returned db c =>
    let tx : Transaction :=
      { Session := sess
        Writable := !opts.ReadOnly
        ID := id
        Catalog := c
        WriteTxMu := false
        OnRollbackHooks := []
        OnCommitHooks := [] }
    let tx := if !opts.ReadOnly then { tx with WriteTxMu := true } else tx
    if opts.Attached then
      let tx := { tx with OnRollbackHooks := tx.OnRollbackHooks ++ [Hook.releaseAttachedTx] }
      let tx := { tx with OnCommitHooks := tx.OnCommitHooks ++ [Hook.releaseAttachedTx] }
      Outcome.returned { db with attachedTransaction := some tx } (Except.ok tx)
    else
      Outcome.returned db (Except.ok tx)

/-- The two deferred calls of `BeginTx`, in the order they run at return:
`db.attachedTxMu.Unlock()` then `db.txmu.RUnlock()`. -/
def BeginTx.deferred (db : Database) : Database :=
  let db := { db with attachedTxMu := false }
  { db with txmu := { db.txmu with readers := db.txmu.readers - 1 } }

/-- `Database.BeginTx` (database.go:265). -/
def BeginTx (db : Database) (opts : Option TxOptions) :
    Outcome (Except Err Transaction) :=
  -- db.txmu.RLock()
  if db.txmu.writer then Outcome.blocked
  else
    let db := { db with txmu := { db.txmu with readers := db.txmu.readers + 1 } }
    let opts := opts.getD TxOptions.zero
    -- if !opts.ReadOnly { db.writetxmu.Lock() }
    if !opts.ReadOnly && db.writetxmu then Outcome.blocked
    else
      let db := if !opts.ReadOnly then { db with writetxmu := true } else db
      -- db.attachedTxMu.Lock()
      if db.attachedTxMu then Outcome.blocked
      else
        let db := { db with attachedTxMu := true }
        if db.attachedTransaction.isSome then
          Outcome.returned (BeginTx.deferred db)
            (Except.error (Err.New "cannot open a transaction within a transaction"))
        else
          match beginTx db (some opts) with
          | Outcome.blocked => Outcome.blocked
          | Outcome.returned db r => Outcome.returned (BeginTx.deferred db) r

/-- `Database.Begin` (database.go:253). -/
def Begin (db : Database) (writable : Bool) : Outcome (Except Err Transaction) :=
  BeginTx db (some { ReadOnly := !writable, Attached := false })

/-- `Database.GetAttachedTx` (database.go:244). -/
def GetAttachedTx (db : Database) : Outcome (Option Transaction) :=
  if db.attachedTxMu then Outcome.blocked
  else Outcome.returned db db.attachedTransaction

/-! ## Ending a transaction

`internal/database/transaction.go` is not among the sources. `closeDatabase`
calls `tx.Rollback()`, so the two ways a transaction ends are modelled from the
specification. -/

/-- Run one hook. -/
def Hook.run : Hook → Database → Outcome Unit
  | Hook.releaseAttachedTx, db => database.releaseAttachedTx db

/-- Run a hook list in insertion order; stop where a hook is suspended. -/
def runHooks : List Hook → Database → Outcome Unit
  | [], db => Outcome.returned db ()
  | h :: hs, db =>
    match h.run db with
    | Outcome.blocked => Outcome.blocked
    | Outcome.returned db _ => runHooks hs db

/-- The write lock a writable transaction leases from the database is given
back: `tx.WriteTxMu.Unlock()` when the field is set. -/
def Transaction.releaseWriteLock (tx : Transaction) (db : Database) : Database :=
  if tx.WriteTxMu then { db with writetxmu := false } else db

/-- Modelled from the spec: `Transaction.Rollback`, whose source is missing.
"Rollback: discards the session; runs OnRollbackHooks in order; releases the
write-lock". Discarding the session leaves the `Database` struct as it is. -/
def Transaction.Rollback (tx : Transaction) (db : Database) : Outcome (Option Err) :=
  match runHooks tx.OnRollbackHooks db with
  | Outcome.blocked => Outcome.blocked
  | Outcome.returned db _ => Outcome.returned (tx.releaseWriteLock db) none

/-- Modelled from the spec: `Transaction.Commit`, whose source is missing.
"Commit: runs the session's commit; on success, runs OnCommitHooks in order;
releases the write-lock (if writable)", and "Hooks are not invoked on a failed
commit". `sessionErr` is what the session's commit returns. -/
def Transaction.Commit (tx : Transaction) (sessionErr : Option Err) (db : Database) :
    Outcome (Option Err) :=
  match sessionErr with
  | some e => Outcome.returned db (some e)
  | none =>
    match runHooks tx.OnCommitHooks db with
    | Outcome.blocked => Outcome.blocked
    | Outcome.returned db _ => Outcome.returned (tx.releaseWriteLock db) none

/-! ## Close -/

/-- What `closeDatabase` asks of packages that are not among the sources: the
sequence names of the final transaction's catalog, the error (or nil) of
`GetSequence` and of `Sequence.Release` for each name, of `Session.Commit`,
and of the key-value store's `Close`. -/
structure CloseEnv where
  ListSequences : List String
  GetSequence : String → Option Err
  Release : String → Option Err
  SessionCommit : Option Err
  DBClose : Option Err

/-- The loop of `closeDatabase` over the sequence names (database.go:221-231):
the first error of `GetSequence` or `Release`, if any. -/
def releaseSequences (env : CloseEnv) : List String → Option Err
  | [] => none
  | seqName :: rest =>
    match env.GetSequence seqName with
    | some err => some err
    | none =>
      match env.Release seqName with
      | some err => some err
      | none => releaseSequences env rest

/-- `Database.closeDatabase` (database.go:205). The deferred
`db.writetxmu.Unlock()` runs on every return after the lock was taken. -/
def closeDatabase (env : CloseEnv) (db : Database) : Outcome (Option Err) :=
  let db := { db with closeRuns := db.closeRuns + 1 }
  -- if tx := db.GetAttachedTx(); tx != nil { _ = tx.Rollback() }
  match GetAttachedTx db with
  | Outcome.blocked => Outcome.blocked
  | Outcome.returned db attached =>
    let afterRollback : Outcome (Option Err) :=
      match attached with
      | some tx => tx.Rollback db
      | none => Outcome.returned db none
    match afterRollback with
    | Outcome.blocked => Outcome.blocked
    | Outcome.returned db _ =>
      -- db.writetxmu.Lock()
      if db.writetxmu then Outcome.blocked
      else
        let db := { db with writetxmu := true }
        match beginTx db none with
        | Outcome.blocked => Outcome.blocked
        | Outcome.returned db (Except.error err) =>
          Outcome.returned { db with writetxmu := false } (some err)
        | Outcome.returned db (Except.ok _) =>
          let db := { db with writetxmu := false }
          match releaseSequences env env.ListSequences with
          | some err => Outcome.returned db (some err)
          | none =>
            match env.SessionCommit with
            | some err => Outcome.returned db (some err)
            | none => Outcome.returned db env.DBClose

/-- `Database.Close` (database.go:195). `sync.Once.Do` runs the function only
if the done flag is unset, and sets the flag when the function has returned. -/
def Close (env : CloseEnv) (db : Database) : Outcome (Option Err) :=
  if db.closeOnce then Outcome.returned db none
  else
    match closeDatabase env db with
    | Outcome.blocked => Outcome.blocked
    | Outcome.returned db err => Outcome.returned { db with closeOnce := true } err

/-- A run of `n` successive `Close` calls: the value each call returned, and
the database after the last one. A suspended call suspends the run. -/
def closeTimes (env : CloseEnv) : Nat → Database → Outcome (List (Option Err))
  | 0, db => Outcome.returned db []
  | n + 1, db =>
    match Close env db with
    | Outcome.blocked => Outcome.blocked
    | Outcome.returned db err =>
      match closeTimes env n db with
      | Outcome.blocked => Outcome.blocked
      | Outcome.returned db errs => Outcome.returned db (err :: errs)

/-! ## Sequences of calls -/

/-- A call made on the database by its user. -/
inductive Event where
  | Begin (writable : Bool) : Event
  | BeginTx (opts : Option TxOptions) : Event
  | Commit (tx : Transaction) (sessionErr : Option Err) : Event
  | Rollback (tx : Transaction) : Event
deriving DecidableEq, Repr

/-- What one `Begin` or `BeginTx` call of a run did: the counter
`TransactionIDs` before the call, the value returned, the counter after. -/
structure BeginRecord where
  before : Nat
  result : Except Err Transaction
  after : Nat
deriving DecidableEq, Repr

/-- The transaction a begin call created, if it created one. -/
def BeginRecord.created (r : BeginRecord) : Option Transaction :=
  match r.result with
  | Except.ok tx => some tx
  | Except.error _ => none

/-- Run the calls in order from `db`. The result is the database after the last
call that returned and one record per begin call that returned, in call order.
The run ends at the first call that is suspended. -/
def runEvents : List Event → Database → Database × List BeginRecord
  | [], db => (db, [])
  | Event.Begin writable :: rest, db =>
    match Begin db writable with
    | Outcome.blocked => (db, [])
    | Outcome.returned db1 r =>
      let out := runEvents rest db1
      (out.1, { before := db.TransactionIDs, result := r, after := db1.TransactionIDs } :: out.2)
  | Event.BeginTx opts :: rest, db =>
    match BeginTx db opts with
    | Outcome.blocked => (db, [])
    | Outcome.returned db1 r =>
      let out := runEvents rest db1
      (out.1, { before := db.TransactionIDs, result := r, after := db1.TransactionIDs } :: out.2)
  | Event.Commit tx sessionErr :: rest, db =>
    match tx.Commit sessionErr db with
    | Outcome.blocked => (db, [])
    | Outcome.returned db1 _ => runEvents rest db1
  | Event.Rollback tx :: rest, db =>
    match tx.Rollback db with
    | Outcome.blocked => (db, [])
    | Outcome.returned db1 _ => runEvents rest db1

/-- The IDs of the transactions a run created, in creation order. -/
def createdIDs (records : List BeginRecord) : List Nat :=
  (records.filterMap BeginRecord.created).map Transaction.ID

/-! ## Sample runs -/

/-- The transaction `Begin(true)` creates on `zero`. -/
def sampleWriter : Transaction :=
  { Session := Session.Batch, Writable := true, ID := 1, Catalog := none, WriteTxMu := true
    OnRollbackHooks := [], OnCommitHooks := [] }

/-- The read-only attached transaction created second in `sampleRun`. -/
def sampleAttachedReader : Transaction :=
  { Session := Session.Snapshot, Writable := false, ID := 2, Catalog := none
    WriteTxMu := false
    OnRollbackHooks := [Hook.releaseAttachedTx], OnCommitHooks := [Hook.releaseAttachedTx] }

/-- A run on `zero`: a writable transaction is begun and rolled back, a
read-only attached transaction is begun, a begin under it fails, it is
committed, and a last transaction is begun. -/
def sampleRun : List Event :=
  [Event.Begin true, Event.Rollback sampleWriter,
    Event.BeginTx (some { ReadOnly := true, Attached := true }), Event.Begin false,
    Event.Commit sampleAttachedReader none, Event.BeginTx none]

/-- The writable attached transaction `BeginTx` creates on `zero`. -/
def sampleAttachedWriter : Transaction :=
  { Session := Session.Batch, Writable := true, ID := 1, Catalog := none, WriteTxMu := true
    OnRollbackHooks := [Hook.releaseAttachedTx], OnCommitHooks := [Hook.releaseAttachedTx] }

/-- The database after `BeginTx` with `Attached` set on `zero`. -/
def sampleAttachedDb : Database :=
  { zero with
    writetxmu := true
    TransactionIDs := 1
    attachedTransaction := some sampleAttachedWriter }

/-- A close in which one sequence is released and the store's `Close` fails. -/
def sampleCloseEnv : CloseEnv :=
  { ListSequences := ["seq"]
    GetSequence := fun _ => none
    Release := fun _ => none
    SessionCommit := none
    DBClose := some (Err.New "pebble: closed") }

/-! ## Run invariants -/

/-- What a begin call of a run must satisfy: a created transaction has the
counter before the call plus one as ID and the counter is advanced to it; a
failed call leaves the counter as it was. -/
def BeginRecord.stamped (r : BeginRecord) : Prop :=
  match r.result with
  | Except.ok tx => tx.ID = r.before + 1 ∧ r.after = tx.ID
  | Except.error _ => r.after = r.before

/-- The invariant of a run of at most `n` calls from `db`. -/
def RunOK (db : Database) (n : Nat) (out : Database × List BeginRecord) : Prop :=
  db.TransactionIDs ≤ out.1.TransactionIDs ∧
  out.1.TransactionIDs ≤ db.TransactionIDs + n ∧
  (∀ r ∈ out.2, r.stamped) ∧
  (∀ i ∈ createdIDs out.2, db.TransactionIDs < i) ∧
  List.Pairwise (fun a b => a < b) (createdIDs out.2)

/-! ## Values and schemas

The packages `types`, `document` and the file that declares `FieldConstraint`,
`TableInfo`, `IndexInfo` and `TableConstraint` are not among the sources. The
declarations below carry the fields that `alter.go` and `encoding_test.go`
read or set, and the value kinds the specification lists. -/

/-- The value kinds `types.IntegerValue`, `types.TextValue`, ... that a field
constraint names as its `Type`. -/
inductive ValueType where
  | NullValue : ValueType
  | BooleanValue : ValueType
  | IntegerValue : ValueType
  | DoubleValue : ValueType
  | TextValue : ValueType
  | BlobValue : ValueType
  | ArrayValue : ValueType
  | DocumentValue : ValueType
deriving DecidableEq, Repr

/-- A Go `float64`, as its IEEE-754 bit pattern. -/
structure Float64 where
  bits : Nat
deriving DecidableEq, Repr

/-- Modelled from the spec: the tagged-variant value, "a finite kind set
(`Null, Bool, Int, Double, Text, Blob, Array, Document`)". A document is the
list of its fields. -/
inductive Value where
  | Null : Value
  | Boolean (b : Bool) : Value
  | Integer (i : Int) : Value
  | Double (d : Float64) : Value
  | Text (s : String) : Value
  | Blob (b : List Nat) : Value
  | Array (elems : List Value) : Value
  | Document (fields : List (String × Value)) : Value

/-- A document: its fields, in order. -/
abbrev Document := List (String × Value)

mutual
/-- A `database.FieldConstraint`, with the fields `encoding_test.go` sets.
`Kind` is the Go field `Type`; `DefaultValue` is the value the default
expression evaluates to; `AnonymousType` holds the field constraints of the
`*AnonymousType`, nil when absent. -/
inductive FieldConstraint where
  | mk (Position : Nat) (Field : String) (Kind : ValueType) (IsNotNull : Bool)
      (DefaultValue : Option Value) (AnonymousType : Option FieldConstraints) : FieldConstraint
/-- A `database.FieldConstraints`: the constraints in declaration order and
the flag `AllowExtraFields`. -/
inductive FieldConstraints where
  | mk (Ordered : List FieldConstraint) (AllowExtraFields : Bool) : FieldConstraints
end

/-- The field name of a constraint. -/
def FieldConstraint.Field : FieldConstraint → String
  | FieldConstraint.mk _ f _ _ _ _ => f

/-- The declared type of a constraint. -/
def FieldConstraint.Kind : FieldConstraint → ValueType
  | FieldConstraint.mk _ _ k _ _ _ => k

/-- Whether the constraint is NOT NULL. -/
def FieldConstraint.IsNotNull : FieldConstraint → Bool
  | FieldConstraint.mk _ _ _ n _ _ => n

/-- The default value of a constraint, if it has one. -/
def FieldConstraint.DefaultValue : FieldConstraint → Option Value
  | FieldConstraint.mk _ _ _ _ d _ => d

/-- The constraints of the anonymous type of a constraint, if it has one. -/
def FieldConstraint.AnonymousType : FieldConstraint → Option FieldConstraints
  | FieldConstraint.mk _ _ _ _ _ a => a

/-- The constraints in declaration order. -/
def FieldConstraints.Ordered : FieldConstraints → List FieldConstraint
  | FieldConstraints.mk o _ => o

/-- Whether fields outside the declared ones are accepted. -/
def FieldConstraints.AllowExtraFields : FieldConstraints → Bool
  | FieldConstraints.mk _ a => a

/-- A `document.Path`: the field names from the root. -/
abbrev Path := List String

/-- One element of `database.TableConstraints`, with the fields `alter.go`
reads. -/
structure TableConstraint where
  Paths : List Path
  PrimaryKey : Bool
  Unique : Bool
deriving DecidableEq, Repr

/-- A `database.Owner`. -/
structure Owner where
  TableName : String
  Paths : List Path
deriving DecidableEq, Repr

/-- A `database.IndexInfo`. A field left out of a Go literal has its zero
value: `IndexName` is then the empty string. -/
structure IndexInfo where
  IndexName : String
  Paths : List Path
  Unique : Bool
  Owner : Owner
deriving DecidableEq, Repr

/-- A `database.TableInfo`. -/
structure TableInfo where
  TableName : String
  FieldConstraints : FieldConstraints
  TableConstraints : List TableConstraint

/-- The kind of a value. -/
def Value.Kind : Value → ValueType
  | Value.Null => ValueType.NullValue
  | Value.Boolean _ => ValueType.BooleanValue
  | Value.Integer _ => ValueType.IntegerValue
  | Value.Double _ => ValueType.DoubleValue
  | Value.Text _ => ValueType.TextValue
  | Value.Blob _ => ValueType.BlobValue
  | Value.Array _ => ValueType.ArrayValue
  | Value.Document _ => ValueType.DocumentValue

/-- Whether a value is `NULL`. -/
def Value.isNull : Value → Bool
  | Value.Null => true
  | _ => false

/-- `Document.GetByField`: the value of the first field with that name. -/
def getByField (name : String) : Document → Option Value
  | [] => none
  | (n, v) :: rest => if n = name then some v else getByField name rest

/-! ## Encoding a document against a schema

`TableInfo.EncodeDocument` and `NewEncodedDocument` are called by
`encoding_test.go`; their source is missing, so they are modelled from the
specification. -/

/-- The position of the highest set bit of `n`, by halving at most `fuel`
times. -/
def log2Fuel : Nat → Nat → Nat
  | 0, _ => 0
  | fuel + 1, n => if n < 2 then 0 else log2Fuel fuel (n / 2) + 1

/-- The Go conversion `float64(i)` of an integer: the nearest double, ties to
the even mantissa. -/
def Float64.ofInt (i : Int) : Float64 :=
  if i = 0 then { bits := 0 }
  else
    let sign := if i < 0 then 2 ^ 63 else 0
    let m := i.natAbs
    let e := log2Fuel m m
    if e ≤ 52 then
      { bits := sign + (e + 1023) * 2 ^ 52 + (m * 2 ^ (52 - e) - 2 ^ 52) }
    else
      let shift := e - 52
      let q := m / 2 ^ shift
      let r := m % 2 ^ shift
      let half := 2 ^ (shift - 1)
      let q := if r > half ∨ (r = half ∧ q % 2 = 1) then q + 1 else q
      { bits := sign + (e + 1023) * 2 ^ 52 + (q - 2 ^ 52) }

mutual
/-- Modelled from the spec: the coercion of a value no declared type governs.
"extra integer fields coerce to double; array element types unify to double":
an integer becomes a double, also inside arrays and documents. -/
def Value.untyped : Value → Value
  | Value.Integer i => Value.Double (Float64.ofInt i)
  | Value.Array elems => Value.Array (untypedElems elems)
  | Value.Document fields => Value.Document (untypedFields fields)
  | v => v
/-- The elements of an array, each with `Value.untyped`. -/
def untypedElems : List Value → List Value
  | [] => []
  | v :: rest => v.untyped :: untypedElems rest
/-- The fields of a document, each with `Value.untyped`. -/
def untypedFields : Document → Document
  | [] => []
  | (name, v) :: rest => (name, v.untyped) :: untypedFields rest
end

/-- The value a declared field starts from: the document's value for the
field, or the default of the constraint when the document has no such field,
or `NULL`. -/
def fieldOrDefault (field : String) (dflt : Option Value) (doc : Document) : Value :=
  match getByField field doc with
  | some v => v
  | none => dflt.getD Value.Null

/-- The fields of a document that no constraint of the list declares, in
document order. -/
def extraFields (ordered : List FieldConstraint) (doc : Document) : Document :=
  doc.filter (fun f => ordered.all (fun fc => fc.Field != f.1))

mutual
/-- Modelled from the spec: `coerce(row, schema)`, "coercion applies declared
types and default values". The declared fields come first, in declaration
order, then the extra fields when the schema allows them; a document with an
extra field is refused when it does not. -/
def coerceDocument : FieldConstraints → Document → Except Err Document
  | FieldConstraints.mk ordered allow, doc =>
    match coerceFields ordered doc with
    | Except.error e => Except.error e
    | Except.ok declared =>
      if allow then Except.ok (declared ++ untypedFields (extraFields ordered doc))
      else
        match extraFields ordered doc with
        | [] => Except.ok declared
        | (name, _) :: _ => Except.error (Err.ConstraintViolation name "extra field")
/-- The declared fields of the coerced document, one per constraint. -/
def coerceFields : List FieldConstraint → Document → Except Err Document
  | [], _ => Except.ok []
  | fc :: rest, doc =>
    match coerceField fc doc with
    | Except.error e => Except.error e
    | Except.ok v =>
      match coerceFields rest doc with
      | Except.error e => Except.error e
      | Except.ok fields => Except.ok (v :: fields)
/-- One declared field: NOT NULL is checked on the value or default, then the
value takes the declared type. `NULL` has every type, an integer becomes a
double in a DOUBLE field, a document is coerced by the anonymous type of the
constraint; a value of another kind than the declared one is refused. -/
def coerceField : FieldConstraint → Document → Except Err (String × Value)
  | FieldConstraint.mk _ field kind notNull dflt anon, doc =>
    if notNull && (fieldOrDefault field dflt doc).isNull then
      Except.error (Err.ConstraintViolation field "NOT NULL")
    else
      match kind, fieldOrDefault field dflt doc with
      | _, Value.Null => Except.ok (field, Value.Null)
      | ValueType.BooleanValue, Value.Boolean b => Except.ok (field, Value.Boolean b)
      | ValueType.IntegerValue, Value.Integer i => Except.ok (field, Value.Integer i)
      | ValueType.DoubleValue, Value.Double d => Except.ok (field, Value.Double d)
      | ValueType.DoubleValue, Value.Integer i =>
        Except.ok (field, Value.Double (Float64.ofInt i))
      | ValueType.TextValue, Value.Text s => Except.ok (field, Value.Text s)
      | ValueType.BlobValue, Value.Blob b => Except.ok (field, Value.Blob b)
      | ValueType.ArrayValue, Value.Array elems =>
        Except.ok (field, Value.Array (untypedElems elems))
      | ValueType.DocumentValue, Value.Document fields =>
        match coerceNested anon fields with
        | Except.error e => Except.error e
        | Except.ok fs => Except.ok (field, Value.Document fs)
      | _, _ => Except.error (Err.ConstraintViolation field "type")
/-- A nested document: coerced by the anonymous type when there is one,
"Nested documents use `AnonymousType` with their own `FieldConstraints`",
and as a value no declared type governs otherwise. -/
def coerceNested : Option FieldConstraints → Document → Except Err Document
  | none, fields => Except.ok (untypedFields fields)
  | some sub, fields => coerceDocument sub fields
end

/-- Modelled from the spec: one item of the value blob. The specification
gives the byte form of a scalar only for keys and none for arrays, documents
or field names, so each item is kept as the scalar or header it encodes:
`ArrayLen` and `DocumentLen` carry the number of elements that follow,
`FieldName` precedes the value of a named field, `Nested` opens a document
laid out by an anonymous type. -/
inductive Cell where
  | Null : Cell
  | Boolean (b : Bool) : Cell
  | Integer (i : Int) : Cell
  | Double (d : Float64) : Cell
  | Text (s : String) : Cell
  | Blob (b : List Nat) : Cell
  | ArrayLen (n : Nat) : Cell
  | DocumentLen (n : Nat) : Cell
  | FieldName (name : String) : Cell
  | Nested : Cell
deriving DecidableEq, Repr

mutual
/-- The items of a value that carries its own kind, names and lengths. -/
def encodeValue : Value → List Cell
  | Value.Null => [Cell.Null]
  | Value.Boolean b => [Cell.Boolean b]
  | Value.Integer i => [Cell.Integer i]
  | Value.Double d => [Cell.Double d]
  | Value.Text s => [Cell.Text s]
  | Value.Blob b => [Cell.Blob b]
  | Value.Array elems => Cell.ArrayLen elems.length :: encodeElems elems
  | Value.Document fields => Cell.DocumentLen fields.length :: encodeNamed fields
/-- The items of the elements of an array. -/
def encodeElems : List Value → List Cell
  | [] => []
  | v :: rest => encodeValue v ++ encodeElems rest
/-- The items of named fields: each name, then the value. -/
def encodeNamed : Document → List Cell
  | [] => []
  | (name, v) :: rest => Cell.FieldName name :: (encodeValue v ++ encodeNamed rest)
end

mutual
/-- Modelled from the spec: "a value blob produced by the encoder given the
`FieldConstraints`". The declared fields are written in declaration order
without their names, then, when extra fields are allowed, their number and
the extra fields with their names. -/
def layoutDocument : FieldConstraints → Document → List Cell
  | FieldConstraints.mk ordered allow, fields =>
    layoutFields ordered fields ++
      (if allow then
        Cell.DocumentLen (fields.drop ordered.length).length ::
          encodeNamed (fields.drop ordered.length)
      else [])
/-- The declared fields, by position. -/
def layoutFields : List FieldConstraint → Document → List Cell
  | [], _ => []
  | _ :: _, [] => []
  | fc :: rest, (_, v) :: fields => layoutField fc v ++ layoutFields rest fields
/-- One declared field. -/
def layoutField : FieldConstraint → Value → List Cell
  | FieldConstraint.mk _ _ _ _ _ anon, Value.Document fs => layoutNested anon fs
  | _, v => encodeValue v
/-- A nested document: laid out by the anonymous type when there is one. -/
def layoutNested : Option FieldConstraints → Document → List Cell
  | none, fs => encodeValue (Value.Document fs)
  | some sub, fs => Cell.Nested :: layoutDocument sub fs
end

/-- Modelled from the spec: `encode(row, schema)` on field constraints. "NOT
NULL, default expressions, and type coercion are applied at encode time": the
document is coerced, which may fail, and the coerced document is laid out. -/
def EncodeDocument (fcs : FieldConstraints) (doc : Document) : Except Err (List Cell) :=
  match coerceDocument fcs doc with
  | Except.error e => Except.error e
  | Except.ok fields => Except.ok (layoutDocument fcs fields)

/-- Modelled from the spec: `TableInfo.EncodeDocument`, whose source is
missing. It encodes with the field constraints of the table. -/
def TableInfo.EncodeDocument (ti : TableInfo) (doc : Document) : Except Err (List Cell) :=
  database.EncodeDocument ti.FieldConstraints doc

mutual
/-- Read one value that carries its own kind. `fuel` bounds the number of
values read; `none` when the items are malformed or the fuel runs out. -/
def decodeValue : Nat → List Cell → Option (Value × List Cell)
  | 0, _ => none
  | _ + 1, [] => none
  | _ + 1, Cell.Null :: rest => some (Value.Null, rest)
  | _ + 1, Cell.Boolean b :: rest => some (Value.Boolean b, rest)
  | _ + 1, Cell.Integer i :: rest => some (Value.Integer i, rest)
  | _ + 1, Cell.Double d :: rest => some (Value.Double d, rest)
  | _ + 1, Cell.Text s :: rest => some (Value.Text s, rest)
  | _ + 1, Cell.Blob b :: rest => some (Value.Blob b, rest)
  | fuel + 1, Cell.ArrayLen n :: rest =>
    match decodeElems fuel n rest with
    | some (elems, rest) => some (Value.Array elems, rest)
    | none => none
  | fuel + 1, Cell.DocumentLen n :: rest =>
    match decodeNamed fuel n rest with
    | some (fields, rest) => some (Value.Document fields, rest)
    | none => none
  | _ + 1, Cell.FieldName _ :: _ => none
  | _ + 1, Cell.Nested :: _ => none
/-- Read `n` array elements. -/
def decodeElems : Nat → Nat → List Cell → Option (List Value × List Cell)
  | _, 0, cells => some ([], cells)
  | 0, _ + 1, _ => none
  | fuel + 1, n + 1, cells =>
    match decodeValue fuel cells with
    | none => none
    | some (v, rest) =>
      match decodeElems fuel n rest with
      | none => none
      | some (vs, rest) => some (v :: vs, rest)
/-- Read `n` named fields. -/
def decodeNamed : Nat → Nat → List Cell → Option (Document × List Cell)
  | _, 0, cells => some ([], cells)
  | 0, _ + 1, _ => none
  | fuel + 1, n + 1, Cell.FieldName name :: cells =>
    match decodeValue fuel cells with
    | none => none
    | some (v, rest) =>
      match decodeNamed fuel n rest with
      | none => none
      | some (fs, rest) => some ((name, v) :: fs, rest)
  | _ + 1, _ + 1, _ => none
end

mutual
/-- Read a document laid out by `fcs`: the declared fields by position, named
from the constraints, then the extra fields when they are allowed. Twice the
number of remaining items is fuel enough for any value they hold. -/
def decodeDocument : FieldConstraints → List Cell → Option (Document × List Cell)
  | FieldConstraints.mk ordered allow, cells =>
    match decodeFields ordered cells with
    | none => none
    | some (declared, rest) =>
      if allow then
        match rest with
        | Cell.DocumentLen n :: rest =>
          match decodeNamed (2 * rest.length) n rest with
          | some (extras, rest) => some (declared ++ extras, rest)
          | none => none
        | _ => none
      else some (declared, rest)
/-- Read the declared fields, one per constraint. -/
def decodeFields : List FieldConstraint → List Cell → Option (Document × List Cell)
  | [], cells => some ([], cells)
  | fc :: rest, cells =>
    match decodeField fc cells with
    | none => none
    | some (f, cells) =>
      match decodeFields rest cells with
      | none => none
      | some (fs, cells) => some (f :: fs, cells)
/-- Read one declared field. -/
def decodeField : FieldConstraint → List Cell → Option ((String × Value) × List Cell)
  | FieldConstraint.mk _ field _ _ _ anon, Cell.Nested :: cells =>
    match decodeNested anon cells with
    | some (fs, rest) => some ((field, Value.Document fs), rest)
    | none => none
  | fc, cells =>
    match decodeValue (2 * cells.length) cells with
    | some (v, rest) => some ((fc.Field, v), rest)
    | none => none
/-- Read a document laid out by an anonymous type. -/
def decodeNested : Option FieldConstraints → List Cell → Option (Document × List Cell)
  | none, _ => none
  | some sub, cells => decodeDocument sub cells
end

/-- Modelled from the spec: `NewEncodedDocument`, whose source is missing,
read in full: `decode(blob, schema)`. The document the blob holds under the
field constraints, `none` when the blob is malformed or has items left over. -/
def NewEncodedDocument (fcs : FieldConstraints) (cells : List Cell) : Option Document :=
  match decodeDocument fcs cells with
  | some (fields, []) => some fields
  | _ => none

mutual
/-- Fuel that lets `decodeValue` read the value back. -/
def Value.fuel : Value → Nat
  | Value.Array elems => fuelElems elems + 1
  | Value.Document fields => fuelNamed fields + 1
  | _ => 1
/-- Fuel that lets `decodeElems` read the elements back. -/
def fuelElems : List Value → Nat
  | [] => 0
  | v :: rest => v.fuel + fuelElems rest + 1
/-- Fuel that lets `decodeNamed` read the fields back. -/
def fuelNamed : Document → Nat
  | [] => 0
  | (_, v) :: rest => v.fuel + fuelNamed rest + 1
end

/-! ## The documents of `TestEncoding` -/

/-- The table of `TestEncoding` (encoding_test.go:15-54):
`a INT, b TEXT, c DOUBLE NOT NULL, d DOUBLE DEFAULT 10, e DOUBLE`, extra
fields allowed. -/
def testTable : TableInfo :=
  { TableName := ""
    FieldConstraints := FieldConstraints.mk
      [FieldConstraint.mk 0 "a" ValueType.IntegerValue false none none,
        FieldConstraint.mk 1 "b" ValueType.TextValue false none none,
        FieldConstraint.mk 2 "c" ValueType.DoubleValue true none none,
        FieldConstraint.mk 3 "d" ValueType.DoubleValue false (some (Value.Integer 10)) none,
        FieldConstraint.mk 4 "e" ValueType.DoubleValue false none none]
      true
    TableConstraints := [] }

/-- The document `doc` of `TestEncoding` (encoding_test.go:56-65); 3.14 and
2000 are written as their bit patterns. -/
def testDoc : Document :=
  [("a", Value.Integer 1), ("b", Value.Text "hello"),
    ("c", Value.Double { bits := 0x40091EB851EB851F }),
    ("e", Value.Integer 100), ("f", Value.Integer 1000),
    ("g", Value.Double { bits := 0x409F400000000000 }),
    ("array", Value.Array [Value.Integer 1, Value.Integer 2, Value.Integer 3]),
    ("doc", Value.Document [("a", Value.Integer 10)])]

/-- The document `want` of `TestEncoding` (encoding_test.go:74-84): the
doubles 3.14, 10, 100, 1000, 2000, `[1, 2, 3]` and 10. -/
def testWant : Document :=
  [("a", Value.Integer 1), ("b", Value.Text "hello"),
    ("c", Value.Double { bits := 0x40091EB851EB851F }),
    ("d", Value.Double { bits := 0x4024000000000000 }),
    ("e", Value.Double { bits := 0x4059000000000000 }),
    ("f", Value.Double { bits := 0x408F400000000000 }),
    ("g", Value.Double { bits := 0x409F400000000000 }),
    ("array", Value.Array [Value.Double { bits := 0x3FF0000000000000 },
      Value.Double { bits := 0x4000000000000000 },
      Value.Double { bits := 0x4008000000000000 }]),
    ("doc", Value.Document [("a", Value.Double { bits := 0x4024000000000000 })])]

/-- The table of the subtest "with nested documents"
(encoding_test.go:89-130): `a DOCUMENT(...), b DOCUMENT(d TEXT, ...), c INT`. -/
def nestedTable : TableInfo :=
  { TableName := ""
    FieldConstraints := FieldConstraints.mk
      [FieldConstraint.mk 0 "a" ValueType.DocumentValue false none
          (some (FieldConstraints.mk [] true)),
        FieldConstraint.mk 1 "b" ValueType.DocumentValue false none
          (some (FieldConstraints.mk
            [FieldConstraint.mk 0 "d" ValueType.TextValue false none none] true)),
        FieldConstraint.mk 2 "c" ValueType.IntegerValue false none none]
      false
    TableConstraints := [] }

/-- The document `doc` of the subtest (encoding_test.go:132-136). -/
def nestedDoc : Document :=
  [("a", Value.Document [("w", Value.Text "hello"), ("x", Value.Integer 1)]),
    ("b", Value.Document [("d", Value.Text "bye"), ("e", Value.Integer 2)]),
    ("c", Value.Integer 100)]

/-- The document `want` of the subtest (encoding_test.go:144-148). -/
def nestedWant : Document :=
  [("a", Value.Document [("w", Value.Text "hello"),
      ("x", Value.Double { bits := 0x3FF0000000000000 })]),
    ("b", Value.Document [("d", Value.Text "bye"),
      ("e", Value.Double { bits := 0x4000000000000000 })]),
    ("c", Value.Integer 100)]

/-- The blob of `testDoc` under `testTable`: the five declared fields by
position, then the four extra fields with their names. -/
def testCells : List Cell :=
  [Cell.Integer 1, Cell.Text "hello",
    Cell.Double { bits := 0x40091EB851EB851F },
    Cell.Double { bits := 0x4024000000000000 },
    Cell.Double { bits := 0x4059000000000000 },
    Cell.DocumentLen 4,
    Cell.FieldName "f", Cell.Double { bits := 0x408F400000000000 },
    Cell.FieldName "g", Cell.Double { bits := 0x409F400000000000 },
    Cell.FieldName "array", Cell.ArrayLen 3,
    Cell.Double { bits := 0x3FF0000000000000 },
    Cell.Double { bits := 0x4000000000000000 },
    Cell.Double { bits := 0x4008000000000000 },
    Cell.FieldName "doc", Cell.DocumentLen 1,
    Cell.FieldName "a", Cell.Double { bits := 0x4024000000000000 }]

end database

namespace statement

open database

/-! ## Streams -/

/-- The stream operators the runners build, each with the arguments of its
constructor call: `table.Scan(name)` with its `Table` field, `table.Validate`,
`table.Insert`, `table.Replace`, `table.Delete`, `index.Insert`,
`index.Delete`, `index.Validate`, `stream.Discard()`. -/
inductive Operator where
  | tableScan (tableName : String) (Table : Option TableInfo) : Operator
  | tableValidate (tableName : String) : Operator
  | tableInsert (tableName : String) : Operator
  | tableReplace (tableName : String) : Operator
  | tableDelete (tableName : String) : Operator
  | indexInsert (indexName : String) : Operator
  | indexDelete (indexName : String) : Operator
  | indexValidate (indexName : String) : Operator
  | discard : Operator

/-- A `*stream.Stream`, as the list of its operators from the source to the
last one piped. -/
structure Stream where
  Ops : List Operator

/-- Modelled from the spec: `stream.New`, whose source is missing. "A stream is
constructed as a directed acyclic composition rooted at one source". -/
def Stream.New (source : Operator) : Stream := { Ops := [source] }

/-- Modelled from the spec: `Stream.Pipe`, whose source is missing. "`Pipe(op)`
appends an operator and returns the new tail"; "the core uses only linear
pipelines". -/
def Stream.Pipe (s : Stream) (op : Operator) : Stream := { Ops := s.Ops ++ [op] }

/-- `StreamStmtIterator` (the `Context` field points back to the caller's
context and is left out). -/
structure StreamStmtIterator where
  Stream : Stream

/-- `Result`: the zero value `Result{}` has a nil iterator. -/
structure Result where
  Iterator : Option StreamStmtIterator

/-! ## The catalog of the running transaction -/

/-- The methods of `ctx.Tx.Catalog` and `ctx.Tx.CatalogWriter()` that `alter.go`
calls, over a catalog state `σ`. Their source is missing, so they are
parameters. The readers of `Catalog` depend on the state only; the writers of
`CatalogWriter` return the state they leave together with their Go results. -/
structure CatalogOps (σ : Type) where
  GetTable : σ → String → Except Err TableInfo
  ListIndexes : σ → String → List String
  GetIndexInfo : σ → String → Except Err IndexInfo
  AddFieldConstraint : σ → String → Option FieldConstraint → List TableConstraint → σ × Option Err
  CreateIndex : σ → IndexInfo → σ × Except Err IndexInfo
  RenameTable : σ → String → String → σ × Option Err

/-- One call on the catalog, with its arguments. -/
inductive CatalogCall where
  | GetTable (tableName : String) : CatalogCall
  | ListIndexes (tableName : String) : CatalogCall
  | GetIndexInfo (indexName : String) : CatalogCall
  | AddFieldConstraint (tableName : String) (fc : Option FieldConstraint)
      (tcs : List TableConstraint) : CatalogCall
  | CreateIndex (info : IndexInfo) : CatalogCall
  | RenameTable (oldName newName : String) : CatalogCall

/-- The `*Context` of a statement: the catalog state of `ctx.Tx`, and the
calls made on it so far, oldest first. -/
structure Context (σ : Type) where
  cat : σ
  calls : List CatalogCall

/-- Record one more call. -/
def Context.log {σ : Type} (ctx : Context σ) (c : CatalogCall) : Context σ :=
  { ctx with calls := ctx.calls ++ [c] }

/-- What `Run` returns, `(Result, error)`, with the context it leaves. -/
structure RunOut (σ : Type) where
  ctx : Context σ
  res : Result
  err : Option Err

/-! ## ALTER TABLE ... RENAME TO -/

/-- `AlterTableRenameStmt` (alter.go:13). -/
structure AlterTableRenameStmt where
  TableName : String
  NewTableName : String
deriving DecidableEq, Repr

/-- `AlterTableRenameStmt.Run` (alter.go:25). -/
def AlterTableRenameStmt.Run {σ : Type} (ops : CatalogOps σ) (stmt : AlterTableRenameStmt)
    (ctx : Context σ) : RunOut σ :=
  let res : Result := { Iterator := none }
  if stmt.TableName = "" then
    { ctx := ctx, res := res, err := some (Err.New "missing table name") }
  else if stmt.NewTableName = "" then
    { ctx := ctx, res := res, err := some (Err.New "missing new table name") }
  else if stmt.TableName = stmt.NewTableName then
    { ctx := ctx, res := res, err := some (Err.AlreadyExistsError stmt.NewTableName) }
  else
    let r := ops.RenameTable ctx.cat stmt.TableName stmt.NewTableName
    let ctx := ctx.log (CatalogCall.RenameTable stmt.TableName stmt.NewTableName)
    { ctx := { ctx with cat := r.1 }, res := res, err := r.2 }

/-! ## ALTER TABLE ... ADD FIELD -/

/-- `AlterTableAddFieldStmt` (alter.go:44). -/
structure AlterTableAddFieldStmt where
  TableName : String
  FieldConstraint : Option FieldConstraint
  TableConstraints : List TableConstraint

/-- The `IndexInfo` literal passed to `CreateIndex` for the constraint `tc`
(alter.go:88-95). -/
def uniqueIndexInfo (tableName : String) (tc : TableConstraint) : IndexInfo :=
  { IndexName := ""
    Paths := tc.Paths
    Unique := true
    Owner := { TableName := tableName, Paths := tc.Paths } }

/-- The loop over `stmt.TableConstraints` (alter.go:84-106), from the values
`newIdxs` and `pkAdded` have when the remaining constraints are `tcs`. It
returns at the first error of `CreateIndex`. -/
def createIndexes {σ : Type} (ops : CatalogOps σ) (tableName : String) :
    List TableConstraint → Context σ → List IndexInfo → Bool →
    Context σ × Except Err (List IndexInfo × Bool)
  | [], ctx, newIdxs, pkAdded => (ctx, Except.ok (newIdxs, pkAdded))
  | tc :: rest, ctx, newIdxs, pkAdded =>
    let pkAdded1 := if tc.PrimaryKey then true else pkAdded
    if tc.Unique then
      let r := ops.CreateIndex ctx.cat (uniqueIndexInfo tableName tc)
      let ctx := ctx.log (CatalogCall.CreateIndex (uniqueIndexInfo tableName tc))
      let ctx := { ctx with cat := r.1 }
      match r.2 with
      | Except.error err => (ctx, Except.error err)
      | Except.ok idx => createIndexes ops tableName rest ctx (newIdxs ++ [idx]) pkAdded1
    else
      createIndexes ops tableName rest ctx newIdxs pkAdded1

/-- The loop deleting the old records from the indexes (alter.go:117-119). -/
def pipeIndexDeletes : List String → Stream → Stream
  | [], s => s
  | indexName :: rest, s => pipeIndexDeletes rest (s.Pipe (Operator.indexDelete indexName))

/-- The loop inserting the records into all the indexes (alter.go:131-141). It
returns at the first error of `GetIndexInfo`. -/
def pipeIndexInserts {σ : Type} (ops : CatalogOps σ) :
    List String → Context σ → Stream → Context σ × Except Err Stream
  | [], ctx, s => (ctx, Except.ok s)
  | indexName :: rest, ctx, s =>
    let ctx1 := ctx.log (CatalogCall.GetIndexInfo indexName)
    match ops.GetIndexInfo ctx.cat indexName with
    | Except.error err => (ctx1, Except.error err)
    | Except.ok info =>
      let s := if info.Unique then s.Pipe (Operator.indexValidate indexName) else s
      pipeIndexInserts ops rest ctx1 (s.Pipe (Operator.indexInsert indexName))

/-- The loop updating the new indexes only (alter.go:152-158). -/
def pipeNewIndexes : List IndexInfo → Stream → Stream
  | [], s => s
  | idx :: rest, s =>
    let s := if idx.Unique then s.Pipe (Operator.indexValidate idx.IndexName) else s
    pipeNewIndexes rest (s.Pipe (Operator.indexInsert idx.IndexName))

/-- `AlterTableAddFieldStmt.Run` (alter.go:58). -/
def AlterTableAddFieldStmt.Run {σ : Type} (ops : CatalogOps σ) (stmt : AlterTableAddFieldStmt)
    (ctx : Context σ) : RunOut σ :=
  -- scan := table.Scan(stmt.TableName); scan.Table, err = GetTable(...)
  let ctx := ctx.log (CatalogCall.GetTable stmt.TableName)
  match ops.GetTable ctx.cat stmt.TableName with
  | Except.error err =>
    { ctx := ctx, res := { Iterator := none }, err := some (Err.Wrap err "failed to get table") }
  | Except.ok ti =>
    let scan := Operator.tableScan stmt.TableName (some ti)
    -- get the current list of indexes
    let indexNames := ops.ListIndexes ctx.cat stmt.TableName
    let ctx := ctx.log (CatalogCall.ListIndexes stmt.TableName)
    -- add the field constraint to the table
    let r := ops.AddFieldConstraint ctx.cat stmt.TableName stmt.FieldConstraint
      stmt.TableConstraints
    let ctx := ctx.log (CatalogCall.AddFieldConstraint stmt.TableName stmt.FieldConstraint
      stmt.TableConstraints)
    let ctx := { ctx with cat := r.1 }
    match r.2 with
    | some err => { ctx := ctx, res := { Iterator := none }, err := some err }
    | none =>
      -- create a unique index for every unique constraint
      match createIndexes ops stmt.TableName stmt.TableConstraints ctx [] false with
      | (ctx, Except.error err) => { ctx := ctx, res := { Iterator := none }, err := some err }
      | (ctx, Except.ok (newIdxs, pkAdded)) =>
        let s := Stream.New scan
        if pkAdded then
          let s := pipeIndexDeletes indexNames s
          let s := s.Pipe (Operator.tableDelete stmt.TableName)
          let s := s.Pipe (Operator.tableValidate stmt.TableName)
          let s := s.Pipe (Operator.tableInsert stmt.TableName)
          let indexNames := ops.ListIndexes ctx.cat stmt.TableName
          let ctx := ctx.log (CatalogCall.ListIndexes stmt.TableName)
          match pipeIndexInserts ops indexNames ctx s with
          | (ctx, Except.error err) =>
            { ctx := ctx, res := { Iterator := none }, err := some err }
          | (ctx, Except.ok s) =>
            let s := s.Pipe Operator.discard
            { ctx := ctx, res := { Iterator := some { Stream := s } }, err := none }
        else
          let s := s.Pipe (Operator.tableValidate stmt.TableName)
          let s := s.Pipe (Operator.tableReplace stmt.TableName)
          let s := pipeNewIndexes newIdxs s
          let s := s.Pipe Operator.discard
          { ctx := ctx, res := { Iterator := some { Stream := s } }, err := none }

/-! ## Reading a built stream -/

/-- The indexes created by the statement, in constraint order: what the
successive `CreateIndex` calls return, one call per `Unique` constraint, each
made on the catalog the previous one left, starting from `cat`. -/
def createdIndexes {σ : Type} (ops : CatalogOps σ) (tableName : String) :
    List TableConstraint → σ → List IndexInfo
  | [], _ => []
  | tc :: rest, cat =>
    if tc.Unique then
      match ops.CreateIndex cat (uniqueIndexInfo tableName tc) with
      | (cat1, Except.ok idx) => idx :: createdIndexes ops tableName rest cat1
      | (_, Except.error _) => []
    else createdIndexes ops tableName rest cat

/-- Whether the catalog `cat` knows the index `indexName` as unique. -/
def isUniqueIndex {σ : Type} (ops : CatalogOps σ) (cat : σ) (indexName : String) : Bool :=
  match ops.GetIndexInfo cat indexName with
  | Except.ok info => info.Unique
  | Except.error _ => false

/-- The index an operator works on, if it is an index operator. -/
def Operator.indexName : Operator → Option String
  | Operator.indexInsert n => some n
  | Operator.indexDelete n => some n
  | Operator.indexValidate n => some n
  | _ => none

/-! ## A catalog kept in memory

A stand-in for the catalog of a transaction, used to run the runners on
concrete statements: tables and indexes are lists, `CreateIndex` names the
index after its table and paths and refuses a name that is taken,
`RenameTable` refuses a name that is taken. -/

/-- The tables and indexes of the stand-in catalog. -/
structure MemCatalog where
  tables : List TableInfo
  indexes : List IndexInfo

/-- The name the stand-in gives an index: table, then every path segment, then
`idx`, joined by underscores. -/
def MemCatalog.indexNameFor (info : IndexInfo) : String :=
  String.intercalate "_" (info.Owner.TableName :: info.Paths.flatten ++ ["idx"])

/-- The operations of the stand-in catalog. -/
def MemCatalog.ops : CatalogOps MemCatalog :=
  { GetTable := fun cat name =>
      match cat.tables.find? (fun ti => ti.TableName == name) with
      | some ti => Except.ok ti
      | none => Except.error (Err.New "table not found")
    ListIndexes := fun cat name =>
      (cat.indexes.filter (fun idx => idx.Owner.TableName == name)).map IndexInfo.IndexName
    GetIndexInfo := fun cat name =>
      match cat.indexes.find? (fun idx => idx.IndexName == name) with
      | some idx => Except.ok idx
      | none => Except.error (Err.New "index not found")
    AddFieldConstraint := fun cat name fc tcs =>
      if cat.tables.any (fun ti => ti.TableName == name) then
        ({ cat with tables := cat.tables.map (fun ti =>
            if ti.TableName == name then
              { ti with
                FieldConstraints := FieldConstraints.mk
                  (ti.FieldConstraints.Ordered ++ fc.toList)
                  ti.FieldConstraints.AllowExtraFields
                TableConstraints := ti.TableConstraints ++ tcs }
            else ti) }, none)
      else (cat, some (Err.New "table not found"))
    CreateIndex := fun cat info =>
      let idx := { info with IndexName :=
        if info.IndexName == "" then MemCatalog.indexNameFor info else info.IndexName }
      if cat.indexes.any (fun i => i.IndexName == idx.IndexName) then
        (cat, Except.error (Err.AlreadyExistsError idx.IndexName))
      else ({ cat with indexes := cat.indexes ++ [idx] }, Except.ok idx)
    RenameTable := fun cat oldName newName =>
      if cat.tables.any (fun ti => ti.TableName == newName) then
        (cat, some (Err.AlreadyExistsError newName))
      else
        ({ cat with tables := cat.tables.map (fun ti =>
            if ti.TableName == oldName then { ti with TableName := newName } else ti) }, none) }

/-- A catalog with the table `t(a)` and the index `ix` on `a`. -/
def MemCatalog.sample : MemCatalog :=
  { tables := [{ TableName := "t"
                 FieldConstraints := FieldConstraints.mk
                   [FieldConstraint.mk 0 "a" ValueType.IntegerValue false none none] false
                 TableConstraints := [] }]
    indexes := [{ IndexName := "ix", Paths := [["a"]], Unique := false
                  Owner := { TableName := "t", Paths := [["a"]] } }] }

/-- The field `b` added by the sample statements. -/
def sampleField : FieldConstraint :=
  FieldConstraint.mk 1 "b" ValueType.IntegerValue false none none

/-- `ALTER TABLE t ADD FIELD b ... PRIMARY KEY`, with a `UNIQUE` constraint on `b`. -/
def samplePrimaryKeyStmt : AlterTableAddFieldStmt :=
  { TableName := "t"
    FieldConstraint := some sampleField
    TableConstraints :=
      [{ Paths := [["b"]], PrimaryKey := true, Unique := false },
       { Paths := [["b"]], PrimaryKey := false, Unique := true }] }

/-- `ALTER TABLE t ADD FIELD b ... UNIQUE`. -/
def sampleUniqueStmt : AlterTableAddFieldStmt :=
  { TableName := "t"
    FieldConstraint := some sampleField
    TableConstraints := [{ Paths := [["b"]], PrimaryKey := false, Unique := true }] }

/-- The context of a transaction on the sample catalog, before any call. -/
def sampleContext : Context MemCatalog := { cat := MemCatalog.sample, calls := [] }

/-- Whether a call goes through `ctx.Tx.CatalogWriter()`. -/
def CatalogCall.isWriterCall : CatalogCall → Bool
  | CatalogCall.AddFieldConstraint _ _ _ => true
  | CatalogCall.CreateIndex _ => true
  | CatalogCall.RenameTable _ _ => true
  | _ => false

/-! ## The stream and the calls of a run without error -/

/-- The stages piped for one index of the new index set: `index.Validate` if
the index is unique, then `index.Insert`. -/
def insertStages (unique : Bool) (indexName : String) : List Operator :=
  (if unique then [Operator.indexValidate indexName] else []) ++ [Operator.indexInsert indexName]

/-- The calls a run that returns no error makes, after those of `ctx`. -/
def successCalls {σ : Type} (ops : CatalogOps σ) (stmt : AlterTableAddFieldStmt)
    (finalCat : σ) : List CatalogCall :=
  [CatalogCall.GetTable stmt.TableName, CatalogCall.ListIndexes stmt.TableName,
    CatalogCall.AddFieldConstraint stmt.TableName stmt.FieldConstraint stmt.TableConstraints] ++
  (stmt.TableConstraints.filter (fun tc => tc.Unique)).map
    (fun tc => CatalogCall.CreateIndex (uniqueIndexInfo stmt.TableName tc)) ++
  (if stmt.TableConstraints.any (fun tc => tc.PrimaryKey) then
    CatalogCall.ListIndexes stmt.TableName ::
      (ops.ListIndexes finalCat stmt.TableName).map CatalogCall.GetIndexInfo
  else [])

/-- The operators of the stream a run that returns no error builds. -/
def successOps {σ : Type} (ops : CatalogOps σ) (stmt : AlterTableAddFieldStmt)
    (startCat finalCat : σ) (ti : TableInfo) : List Operator :=
  if stmt.TableConstraints.any (fun tc => tc.PrimaryKey) then
    [Operator.tableScan stmt.TableName (some ti)] ++
    (ops.ListIndexes startCat stmt.TableName).map Operator.indexDelete ++
    [Operator.tableDelete stmt.TableName, Operator.tableValidate stmt.TableName,
      Operator.tableInsert stmt.TableName] ++
    (ops.ListIndexes finalCat stmt.TableName).flatMap
      (fun n => insertStages (isUniqueIndex ops finalCat n) n) ++
    [Operator.discard]
  else
    [Operator.tableScan stmt.TableName (some ti), Operator.tableValidate stmt.TableName,
      Operator.tableReplace stmt.TableName] ++
    (createdIndexes ops stmt.TableName stmt.TableConstraints
      (ops.AddFieldConstraint startCat stmt.TableName stmt.FieldConstraint
        stmt.TableConstraints).1).flatMap
      (fun idx => insertStages idx.Unique idx.IndexName) ++
    [Operator.discard]

/-! ## A run that fails -/

/-- The first `CreateIndex` of the statement that fails, if one does: its rank
among the `CreateIndex` calls, counted from 1, and the error it returns. The
calls are made for the `Unique` constraints in order, each on the catalog the
previous one left, starting from `cat`. -/
def firstCreateIndexFailure {σ : Type} (ops : CatalogOps σ) (tableName : String) :
    List TableConstraint → σ → Option (Nat × Err)
  | [], _ => none
  | tc :: rest, cat =>
    if tc.Unique then
      match ops.CreateIndex cat (uniqueIndexInfo tableName tc) with
      | (_, Except.error err) => some (1, err)
      | (cat1, Except.ok _) =>
        match firstCreateIndexFailure ops tableName rest cat1 with
        | some (k, err) => some (k + 1, err)
        | none => none
    else firstCreateIndexFailure ops tableName rest cat

/-- The catalog the `CreateIndex` calls of the statement leave: the calls are
made as in `firstCreateIndexFailure` and end with the first one that fails. -/
def catalogAfterCreates {σ : Type} (ops : CatalogOps σ) (tableName : String) :
    List TableConstraint → σ → σ
  | [], cat => cat
  | tc :: rest, cat =>
    if tc.Unique then
      match ops.CreateIndex cat (uniqueIndexInfo tableName tc) with
      | (cat1, Except.error _) => cat1
      | (cat1, Except.ok _) => catalogAfterCreates ops tableName rest cat1
    else catalogAfterCreates ops tableName rest cat

/-- The stand-in catalog with a writer that enforces field names: adding a
field that the table already declares fails with `AlreadyExistsError`. -/
def MemCatalog.strictOps : CatalogOps MemCatalog :=
  { MemCatalog.ops with
    AddFieldConstraint := fun cat name fc tcs =>
      match fc with
      | none => MemCatalog.ops.AddFieldConstraint cat name fc tcs
      | some c =>
        if cat.tables.any (fun ti => ti.TableName == name &&
            ti.FieldConstraints.Ordered.any (fun d => d.Field == c.Field)) then
          (cat, some (Err.AlreadyExistsError c.Field))
        else MemCatalog.ops.AddFieldConstraint cat name fc tcs }

/-- The stand-in catalog with a reader that was not refreshed: `GetIndexInfo`
answers from the sample catalog and does not know an index created since. -/
def MemCatalog.staleOps : CatalogOps MemCatalog :=
  { MemCatalog.ops with
    GetIndexInfo := fun _ name => MemCatalog.ops.GetIndexInfo MemCatalog.sample name }

/-- `ALTER TABLE missing ADD FIELD b ...`: the table is not in the sample
catalog. -/
def sampleMissingTableStmt : AlterTableAddFieldStmt :=
  { TableName := "missing"
    FieldConstraint := some sampleField
    TableConstraints := [{ Paths := [["b"]], PrimaryKey := false, Unique := true }] }

/-- `ALTER TABLE t ADD FIELD a ... UNIQUE`: the table already declares `a`. -/
def sampleDuplicateFieldStmt : AlterTableAddFieldStmt :=
  { TableName := "t"
    FieldConstraint := some (FieldConstraint.mk 1 "a" ValueType.IntegerValue false none none)
    TableConstraints := [{ Paths := [["a"]], PrimaryKey := false, Unique := true }] }

/-- `ALTER TABLE t ADD FIELD b ...` with three constraints, the first and the
last `UNIQUE` on `b`: the second `CreateIndex` asks for the name the first one
took. -/
def sampleTwiceUniqueStmt : AlterTableAddFieldStmt :=
  { TableName := "t"
    FieldConstraint := some sampleField
    TableConstraints :=
      [{ Paths := [["b"]], PrimaryKey := false, Unique := true },
       { Paths := [["b"]], PrimaryKey := true, Unique := false },
       { Paths := [["b"]], PrimaryKey := false, Unique := true }] }

end statement

/-! # Theorems -/

namespace database

/-! ## Begin under an attached transaction -/

theorem BeginTx_returned (db db1 : Database) (opts : Option TxOptions)
    (r : Except Err Transaction) (h : BeginTx db opts = Outcome.returned db1 r) :
    (∃ tx, r = Except.ok tx ∧ db.attachedTransaction = none ∧
      tx.ID = addUint64 db.TransactionIDs 1 ∧ db1.TransactionIDs = tx.ID ∧
      (if (opts.getD TxOptions.zero).Attached then
        db1.attachedTransaction = some tx ∧
        tx.OnCommitHooks = [Hook.releaseAttachedTx] ∧
        tx.OnRollbackHooks = [Hook.releaseAttachedTx]
      else
        db1.attachedTransaction = db.attachedTransaction ∧
        tx.OnCommitHooks = [] ∧ tx.OnRollbackHooks = [])) ∨
    (r = Except.error (Err.New "cannot open a transaction within a transaction") ∧
      db.attachedTransaction.isSome = true ∧
      db1.TransactionIDs = db.TransactionIDs ∧
      db1.attachedTransaction = db.attachedTransaction) := by
  unfold BeginTx beginTx Catalog BeginTx.deferred at h
  generalize opts.getD TxOptions.zero = o at h ⊢
  obtain ⟨ro, att⟩ := o
  obtain ⟨⟨cw, cr⟩, cat, atx, amu, ⟨tw, tr⟩, wmu, ids, once, runs⟩ := db
  cases tw <;> cases ro <;> cases wmu <;> cases amu <;> cases atx <;> cases cw <;>
    cases att <;> simp at h <;> obtain ⟨h1, h2⟩ := h <;> subst h1 h2 <;> simp

/-- A begin that asks for a writable transaction while `writetxmu` is held is
suspended at `db.writetxmu.Lock()`, whatever the attached transaction is. -/
theorem BeginTx_blocked_of_writetxmu (db : Database) (opts : Option TxOptions)
    (hw : db.writetxmu = true) (hro : (opts.getD TxOptions.zero).ReadOnly = false) :
    BeginTx db opts = Outcome.blocked := by
  unfold BeginTx
  by_cases h1 : db.txmu.writer = true
  · simp [h1]
  · simp [h1, hw, hro]

/-- A read-only begin under an attached transaction, with `txmu` and
`attachedTxMu` free, returns the conflict error and leaves the database as it
was. -/
theorem BeginTx_readOnly_conflict (db : Database) (opts : Option TxOptions)
    (ht : db.txmu.writer = false) (ha : db.attachedTxMu = false)
    (hatt : db.attachedTransaction.isSome = true)
    (hro : (opts.getD TxOptions.zero).ReadOnly = true) :
    BeginTx db opts = Outcome.returned db
      (Except.error (Err.New "cannot open a transaction within a transaction")) := by
  obtain ⟨cmu, cat, atx, amu, ⟨tw, tr⟩, wmu, ids, once, runs⟩ := db
  simp only at ht ha hatt
  subst ht ha
  simp [BeginTx, BeginTx.deferred, hro, hatt]

/-- C1 (the code breaks the claim): on the database `New` starts from,
`BeginTx` with `Attached` set and `ReadOnly` unset returns a transaction that
is attached and holds `writetxmu`. While it is live, `Begin(true)`, `BeginTx`
with nil options and `BeginTx` with `Attached` set do not return the error
"cannot open a transaction within a transaction": each is suspended at
`db.writetxmu.Lock()`, which `BeginTx` runs before it looks at the attached
transaction. Only the read-only `Begin(false)` returns that error. -/
theorem C1_writable_begin_suspended_under_attached_writer :
    BeginTx zero (some { ReadOnly := false, Attached := true }) =
      Outcome.returned sampleAttachedDb (Except.ok sampleAttachedWriter) ∧
    sampleAttachedDb.attachedTransaction = some sampleAttachedWriter ∧
    sampleAttachedWriter.Writable = true ∧
    sampleAttachedDb.writetxmu = true ∧
    Begin sampleAttachedDb true = Outcome.blocked ∧
    BeginTx sampleAttachedDb none = Outcome.blocked ∧
    BeginTx sampleAttachedDb (some { ReadOnly := false, Attached := true }) =
      Outcome.blocked ∧
    Begin sampleAttachedDb false = Outcome.returned sampleAttachedDb
      (Except.error (Err.New "cannot open a transaction within a transaction")) := by
  decide

/-- C2 (the code breaks the claim): on the database `New` starts from, a
read-only attached transaction is begun, which leaves `writetxmu` free. A
`BeginTx` for a writable transaction then locks `writetxmu`, fails with
"cannot open a transaction within a transaction" and returns with `writetxmu`
still held: the lock state after the failed call differs from the state
before it, and every later writable begin is suspended. -/
theorem C2_failed_begin_keeps_writetxmu :
    ∃ db1 tx db2,
      BeginTx zero (some { ReadOnly := true, Attached := true }) =
        Outcome.returned db1 (Except.ok tx) ∧
      db1.attachedTransaction = some tx ∧ tx.Writable = false ∧
      db1.writetxmu = false ∧
      BeginTx db1 (some { ReadOnly := false, Attached := false }) =
        Outcome.returned db2
          (Except.error (Err.New "cannot open a transaction within a transaction")) ∧
      db2.writetxmu = true ∧
      Begin db2 true = Outcome.blocked :=
  ⟨_, _, _, rfl, rfl, rfl, rfl, rfl, rfl, rfl⟩

end database

namespace statement

open database

/-! ## The loops of `AlterTableAddFieldStmt.Run` -/

theorem pipeIndexDeletes_ops (names : List String) (s : Stream) :
    (pipeIndexDeletes names s).Ops = s.Ops ++ names.map Operator.indexDelete := by
  induction names generalizing s with
  | nil => simp [pipeIndexDeletes]
  | cons n rest ih => simp [pipeIndexDeletes, ih, Stream.Pipe]

theorem pipeNewIndexes_ops (idxs : List IndexInfo) (s : Stream) :
    (pipeNewIndexes idxs s).Ops =
      s.Ops ++ idxs.flatMap (fun idx => insertStages idx.Unique idx.IndexName) := by
  induction idxs generalizing s with
  | nil => simp [pipeNewIndexes]
  | cons idx rest ih =>
    cases hu : idx.Unique <;>
      simp [pipeNewIndexes, ih, Stream.Pipe, insertStages, hu]

theorem pipeIndexInserts_ok {σ : Type} (ops : CatalogOps σ) (names : List String)
    (ctx ctx1 : Context σ) (s s1 : Stream)
    (h : pipeIndexInserts ops names ctx s = (ctx1, Except.ok s1)) :
    ctx1.cat = ctx.cat ∧
    ctx1.calls = ctx.calls ++ names.map CatalogCall.GetIndexInfo ∧
    (∀ n ∈ names, ∃ info, ops.GetIndexInfo ctx.cat n = Except.ok info) ∧
    s1.Ops = s.Ops ++
      names.flatMap (fun n => insertStages (isUniqueIndex ops ctx.cat n) n) := by
  induction names generalizing ctx s with
  | nil =>
    simp only [pipeIndexInserts, Prod.mk.injEq, Except.ok.injEq] at h
    obtain ⟨h1, h2⟩ := h
    subst h1 h2
    simp
  | cons n rest ih =>
    simp only [pipeIndexInserts] at h
    cases hg : ops.GetIndexInfo ctx.cat n with
    | error e => simp [hg] at h
    | ok info =>
      simp only [hg] at h
      obtain ⟨h1, h2, h3, h4⟩ := ih _ _ h
      simp only [Context.log] at h1 h2 h3 h4
      refine ⟨h1, ?_, ?_, ?_⟩
      · simp [h2]
      · intro m hm
        rcases List.mem_cons.mp hm with rfl | hm
        · exact ⟨info, hg⟩
        · exact h3 m hm
      · rw [h4]
        cases hu : info.Unique <;>
          simp [Stream.Pipe, insertStages, isUniqueIndex, hg, hu]

theorem createIndexes_ok {σ : Type} (ops : CatalogOps σ) (tableName : String)
    (tcs : List TableConstraint) (ctx ctx1 : Context σ) (acc idxs : List IndexInfo)
    (pk pk1 : Bool)
    (h : createIndexes ops tableName tcs ctx acc pk = (ctx1, Except.ok (idxs, pk1))) :
    ctx1.calls = ctx.calls ++
      (tcs.filter (fun tc => tc.Unique)).map
        (fun tc => CatalogCall.CreateIndex (uniqueIndexInfo tableName tc)) ∧
    idxs = acc ++ createdIndexes ops tableName tcs ctx.cat ∧
    (createdIndexes ops tableName tcs ctx.cat).length =
      (tcs.filter (fun tc => tc.Unique)).length ∧
    pk1 = (pk || tcs.any (fun tc => tc.PrimaryKey)) := by
  induction tcs generalizing ctx acc pk with
  | nil =>
    simp only [createIndexes, Prod.mk.injEq, Except.ok.injEq] at h
    obtain ⟨h1, h2, h3⟩ := h
    subst h1 h2 h3
    simp [createdIndexes]
  | cons tc rest ih =>
    simp only [createIndexes] at h
    cases hu : tc.Unique with
    | false =>
      simp only [hu, Bool.false_eq_true, if_false] at h
      obtain ⟨h1, h2, h3, h4⟩ := ih _ _ _ h
      refine ⟨?_, ?_, ?_, ?_⟩
      · simp [h1, hu]
      · simp [h2, createdIndexes, hu]
      · simp [createdIndexes, hu, h3]
      · rw [h4, List.any_cons]; cases hp : tc.PrimaryKey <;> cases pk <;> simp
    | true =>
      simp only [hu, if_true] at h
      cases hc : ops.CreateIndex ctx.cat (uniqueIndexInfo tableName tc) with
      | mk cat1 r =>
        cases r with
        | error e => simp [hc] at h
        | ok idx =>
          simp only [hc] at h
          obtain ⟨h1, h2, h3, h4⟩ := ih _ _ _ h
          simp only [Context.log] at h1 h2 h3 h4
          refine ⟨?_, ?_, ?_, ?_⟩
          · simp [h1, hu]
          · simp [h2, createdIndexes, hu, hc]
          · simp [createdIndexes, hu, hc, h3]
          · rw [h4, List.any_cons]; cases hp : tc.PrimaryKey <;> cases pk <;> simp

theorem Run_ok {σ : Type} (ops : CatalogOps σ) (stmt : AlterTableAddFieldStmt)
    (ctx : Context σ) (h : (stmt.Run ops ctx).err = none) :
    ∃ ti, ops.GetTable ctx.cat stmt.TableName = Except.ok ti ∧
      (ops.AddFieldConstraint ctx.cat stmt.TableName stmt.FieldConstraint
        stmt.TableConstraints).2 = none ∧
      (createdIndexes ops stmt.TableName stmt.TableConstraints
        (ops.AddFieldConstraint ctx.cat stmt.TableName stmt.FieldConstraint
          stmt.TableConstraints).1).length =
        (stmt.TableConstraints.filter (fun tc => tc.Unique)).length ∧
      (stmt.TableConstraints.any (fun tc => tc.PrimaryKey) = true →
        ∀ n ∈ ops.ListIndexes (stmt.Run ops ctx).ctx.cat stmt.TableName,
          ∃ info, ops.GetIndexInfo (stmt.Run ops ctx).ctx.cat n = Except.ok info) ∧
      (stmt.Run ops ctx).ctx.calls =
        ctx.calls ++ successCalls ops stmt (stmt.Run ops ctx).ctx.cat ∧
      (stmt.Run ops ctx).res =
        { Iterator := some { Stream :=
          { Ops := successOps ops stmt ctx.cat (stmt.Run ops ctx).ctx.cat ti } } } := by
  unfold AlterTableAddFieldStmt.Run at h ⊢
  simp only [Context.log] at h ⊢
  cases hg : ops.GetTable ctx.cat stmt.TableName with
  | error e => simp [hg] at h
  | ok ti =>
    simp only [hg] at h ⊢
    cases ha : (ops.AddFieldConstraint ctx.cat stmt.TableName stmt.FieldConstraint
        stmt.TableConstraints).2 with
    | some e => simp [ha] at h
    | none =>
      simp only [ha] at h ⊢
      generalize hci : createIndexes ops stmt.TableName stmt.TableConstraints
        { cat := (ops.AddFieldConstraint ctx.cat stmt.TableName stmt.FieldConstraint
            stmt.TableConstraints).1,
          calls := ctx.calls ++ [CatalogCall.GetTable stmt.TableName] ++
            [CatalogCall.ListIndexes stmt.TableName] ++
            [CatalogCall.AddFieldConstraint stmt.TableName stmt.FieldConstraint
              stmt.TableConstraints] } [] false = ci at h ⊢
      obtain ⟨ctx2, r⟩ := ci
      cases r with
      | error e => simp at h
      | ok p =>
        obtain ⟨idxs, pk⟩ := p
        obtain ⟨h1, h2, h3, h4⟩ := createIndexes_ok _ _ _ _ _ _ _ _ _ hci
        simp only [List.nil_append, Bool.false_or] at h2 h4
        simp only at h h1 h3 ⊢
        cases pk with
        | false =>
          simp only [Bool.false_eq_true, if_false] at h ⊢
          refine ⟨ti, rfl, trivial, h3, ?_, ?_, ?_⟩
          · intro hp
            rw [← h4] at hp
            cases hp
          · simp [h1, successCalls, ← h4]
          · simp [successOps, ← h4, pipeNewIndexes_ops, Stream.Pipe, Stream.New, h2]
        | true =>
          simp only [if_true] at h ⊢
          generalize hpi : pipeIndexInserts ops (ops.ListIndexes ctx2.cat stmt.TableName)
            { cat := ctx2.cat, calls := ctx2.calls ++ [CatalogCall.ListIndexes stmt.TableName] }
            ((((pipeIndexDeletes (ops.ListIndexes ctx.cat stmt.TableName)
              (Stream.New (Operator.tableScan stmt.TableName (some ti)))).Pipe
              (Operator.tableDelete stmt.TableName)).Pipe
              (Operator.tableValidate stmt.TableName)).Pipe
              (Operator.tableInsert stmt.TableName)) = pi at h ⊢
          obtain ⟨ctx3, r3⟩ := pi
          cases r3 with
          | error e => simp at h
          | ok s3 =>
            obtain ⟨k1, k2, k3, k4⟩ := pipeIndexInserts_ok _ _ _ _ _ _ hpi
            simp only at k1 k2 k3 k4 ⊢
            refine ⟨ti, rfl, trivial, h3, ?_, ?_, ?_⟩
            · intro _
              rw [k1]
              exact k3
            · simp [k2, k1, h1, successCalls, ← h4]
            · simp [successOps, ← h4, k4, k1, pipeIndexDeletes_ops, Stream.Pipe, Stream.New]

theorem createdIndexes_unique {σ : Type} (ops : CatalogOps σ) (tableName : String)
    (hU : ∀ cat info cat1 idx, ops.CreateIndex cat info = (cat1, Except.ok idx) →
      idx.Unique = info.Unique)
    (tcs : List TableConstraint) (cat : σ) :
    ∀ idx ∈ createdIndexes ops tableName tcs cat, idx.Unique = true := by
  induction tcs generalizing cat with
  | nil => simp [createdIndexes]
  | cons tc rest ih =>
    intro idx hidx
    simp only [createdIndexes] at hidx
    cases hu : tc.Unique with
    | false =>
      simp only [hu, Bool.false_eq_true, if_false] at hidx
      exact ih _ idx hidx
    | true =>
      simp only [hu, if_true] at hidx
      cases hc : ops.CreateIndex cat (uniqueIndexInfo tableName tc) with
      | mk cat1 r =>
        cases r with
        | error e => simp [hc] at hidx
        | ok i =>
          simp only [hc, List.mem_cons] at hidx
          rcases hidx with rfl | hidx
          · exact hU _ _ _ _ hc
          · exact ih _ idx hidx

theorem successCalls_writers {σ : Type} (ops : CatalogOps σ) (stmt : AlterTableAddFieldStmt)
    (finalCat : σ) :
    (successCalls ops stmt finalCat).filter CatalogCall.isWriterCall =
      CatalogCall.AddFieldConstraint stmt.TableName stmt.FieldConstraint
          stmt.TableConstraints ::
        (stmt.TableConstraints.filter (fun tc => tc.Unique)).map
          (fun tc => CatalogCall.CreateIndex (uniqueIndexInfo stmt.TableName tc)) := by
  have h1 : ∀ l : List TableConstraint,
      (l.map (fun tc => CatalogCall.CreateIndex (uniqueIndexInfo stmt.TableName tc))).filter
        CatalogCall.isWriterCall =
      l.map (fun tc => CatalogCall.CreateIndex (uniqueIndexInfo stmt.TableName tc)) := by
    intro l
    induction l with
    | nil => rfl
    | cons a l ih => simp [CatalogCall.isWriterCall]
  have h2 : ∀ l : List String,
      (l.map CatalogCall.GetIndexInfo).filter CatalogCall.isWriterCall = [] := by
    intro l
    induction l with
    | nil => rfl
    | cons a l ih => simp [CatalogCall.isWriterCall]
  unfold successCalls
  by_cases hp : stmt.TableConstraints.any (fun tc => tc.PrimaryKey) = true
  · simp only [hp, if_true, List.filter_append, h1, List.filter_cons, h2]
    simp [CatalogCall.isWriterCall]
  · simp only [hp, if_false, List.filter_append, h1]
    simp [CatalogCall.isWriterCall]

theorem MemCatalog.createIndex_unique (cat : MemCatalog) (info : IndexInfo)
    (cat1 : MemCatalog) (idx : IndexInfo)
    (h : MemCatalog.ops.CreateIndex cat info = (cat1, Except.ok idx)) :
    idx.Unique = info.Unique := by
  simp only [MemCatalog.ops] at h
  split at h <;> split at h <;>
    simp only [Prod.mk.injEq, Except.ok.injEq, reduceCtorEq, and_false] at h <;>
    rw [← h.2]

/-! ## ALTER TABLE ... RENAME TO -/

/-- C3: for every non-empty table name `t`, running
`AlterTableRenameStmt{TableName: t, NewTableName: t}` returns the error
`AlreadyExistsError{Name: t}` with an empty result, makes no call on the
catalog (so no `RenameTable`), and leaves the catalog as it was. -/
theorem C3_rename_to_same_name_already_exists {σ : Type} (ops : CatalogOps σ)
    (ctx : Context σ) (t : String) (ht : t ≠ "") :
    (AlterTableRenameStmt.Run ops { TableName := t, NewTableName := t } ctx).err =
      some (Err.AlreadyExistsError t) ∧
    (AlterTableRenameStmt.Run ops { TableName := t, NewTableName := t } ctx).res =
      { Iterator := none } ∧
    (AlterTableRenameStmt.Run ops { TableName := t, NewTableName := t } ctx).ctx.calls =
      ctx.calls ∧
    (AlterTableRenameStmt.Run ops { TableName := t, NewTableName := t } ctx).ctx.cat =
      ctx.cat := by
  simp [AlterTableRenameStmt.Run, ht]

theorem C3_rename_to_same_name_already_exists_witness :
    "t" ≠ "" ∧
    (AlterTableRenameStmt.Run MemCatalog.ops { TableName := "t", NewTableName := "t" }
      sampleContext).err = some (Err.AlreadyExistsError "t") ∧
    (AlterTableRenameStmt.Run MemCatalog.ops { TableName := "t", NewTableName := "t" }
      sampleContext).res = { Iterator := none } ∧
    (AlterTableRenameStmt.Run MemCatalog.ops { TableName := "t", NewTableName := "t" }
      sampleContext).ctx.calls = sampleContext.calls ∧
    (AlterTableRenameStmt.Run MemCatalog.ops { TableName := "t", NewTableName := "t" }
      sampleContext).ctx.cat = sampleContext.cat :=
  ⟨by decide, C3_rename_to_same_name_already_exists MemCatalog.ops sampleContext "t" (by decide)⟩

/-! ## ALTER TABLE ... ADD FIELD -/

/-- C4: when some table constraint is a primary key and `Run` returns no error
(every catalog call succeeded), the stream is the scan bound to the
`TableInfo` that `GetTable` gave on the catalog before the call, one
`index.Delete` per index name listed on that catalog, in list order, then
`table.Delete`, `table.Validate`, `table.Insert`, then for each index name
listed on the catalog the run leaves, in list order, `index.Validate` if
`GetIndexInfo` says the index is unique and `index.Insert`, and last one
`stream.Discard`. -/
theorem C4_primary_key_added_stream {σ : Type} (ops : CatalogOps σ)
    (stmt : AlterTableAddFieldStmt) (ctx : Context σ)
    (hPK : ∃ tc ∈ stmt.TableConstraints, tc.PrimaryKey = true)
    (hOk : (stmt.Run ops ctx).err = none) :
    ∃ ti, ops.GetTable ctx.cat stmt.TableName = Except.ok ti ∧
      (∀ n ∈ ops.ListIndexes (stmt.Run ops ctx).ctx.cat stmt.TableName,
        ∃ info, ops.GetIndexInfo (stmt.Run ops ctx).ctx.cat n = Except.ok info ∧
          isUniqueIndex ops (stmt.Run ops ctx).ctx.cat n = info.Unique) ∧
      (stmt.Run ops ctx).res.Iterator = some (StreamStmtIterator.mk (Stream.mk (
        [Operator.tableScan stmt.TableName (some ti)] ++
        (ops.ListIndexes ctx.cat stmt.TableName).map Operator.indexDelete ++
        [Operator.tableDelete stmt.TableName, Operator.tableValidate stmt.TableName,
          Operator.tableInsert stmt.TableName] ++
        (ops.ListIndexes (stmt.Run ops ctx).ctx.cat stmt.TableName).flatMap
          (fun n =>
            (if isUniqueIndex ops (stmt.Run ops ctx).ctx.cat n
              then [Operator.indexValidate n] else []) ++ [Operator.indexInsert n]) ++
        [Operator.discard]))) := by
  obtain ⟨ti, hg, -, -, hinfo, -, hres⟩ := Run_ok ops stmt ctx hOk
  have hany : stmt.TableConstraints.any (fun tc => tc.PrimaryKey) = true := by
    simpa using hPK
  refine ⟨ti, hg, ?_, ?_⟩
  · intro n hn
    obtain ⟨info, hi⟩ := hinfo hany n hn
    exact ⟨info, hi, by simp [isUniqueIndex, hi]⟩
  · rw [hres]
    simp only [successOps, hany, if_true]
    rfl

theorem C4_primary_key_added_stream_witness :
    (∃ tc ∈ samplePrimaryKeyStmt.TableConstraints, tc.PrimaryKey = true) ∧
    (samplePrimaryKeyStmt.Run MemCatalog.ops sampleContext).err = none ∧
    ∃ ti, MemCatalog.ops.GetTable sampleContext.cat samplePrimaryKeyStmt.TableName =
        Except.ok ti ∧
      (∀ n ∈ MemCatalog.ops.ListIndexes
          (samplePrimaryKeyStmt.Run MemCatalog.ops sampleContext).ctx.cat
          samplePrimaryKeyStmt.TableName,
        ∃ info, MemCatalog.ops.GetIndexInfo
            (samplePrimaryKeyStmt.Run MemCatalog.ops sampleContext).ctx.cat n =
            Except.ok info ∧
          isUniqueIndex MemCatalog.ops
            (samplePrimaryKeyStmt.Run MemCatalog.ops sampleContext).ctx.cat n = info.Unique) ∧
      (samplePrimaryKeyStmt.Run MemCatalog.ops sampleContext).res.Iterator =
        some (StreamStmtIterator.mk (Stream.mk (
          [Operator.tableScan samplePrimaryKeyStmt.TableName (some ti)] ++
          (MemCatalog.ops.ListIndexes sampleContext.cat samplePrimaryKeyStmt.TableName).map
            Operator.indexDelete ++
          [Operator.tableDelete samplePrimaryKeyStmt.TableName,
            Operator.tableValidate samplePrimaryKeyStmt.TableName,
            Operator.tableInsert samplePrimaryKeyStmt.TableName] ++
          (MemCatalog.ops.ListIndexes
            (samplePrimaryKeyStmt.Run MemCatalog.ops sampleContext).ctx.cat
            samplePrimaryKeyStmt.TableName).flatMap
            (fun n =>
              (if isUniqueIndex MemCatalog.ops
                  (samplePrimaryKeyStmt.Run MemCatalog.ops sampleContext).ctx.cat n
                then [Operator.indexValidate n] else []) ++ [Operator.indexInsert n]) ++
          [Operator.discard]))) :=
  ⟨by decide, by decide,
    C4_primary_key_added_stream MemCatalog.ops samplePrimaryKeyStmt sampleContext
      (by decide) (by decide)⟩

/-- The stream the primary-key sample builds, computed: the old index `ix` is
emptied and refilled without validation, the new unique index is validated. -/
theorem samplePrimaryKeyStmt_stream :
    (samplePrimaryKeyStmt.Run MemCatalog.ops sampleContext).res.Iterator =
      some (StreamStmtIterator.mk (Stream.mk
        [Operator.tableScan "t" MemCatalog.sample.tables.head?,
          Operator.indexDelete "ix", Operator.tableDelete "t", Operator.tableValidate "t",
          Operator.tableInsert "t", Operator.indexInsert "ix",
          Operator.indexValidate "t_b_idx", Operator.indexInsert "t_b_idx",
          Operator.discard])) := by
  rfl

/-- C5: when no table constraint is a primary key and `Run` returns no error
(every catalog call succeeded), with a `CreateIndex` that returns the index
with the `Unique` flag it was asked for and with names that are not among the
table's indexes before the call, the stream is the old-schema scan,
`table.Validate`, `table.Replace`, then `index.Validate` followed by
`index.Insert` for each index the statement created, in constraint order, and
last one `stream.Discard`. It has no `table.Delete`, `table.Insert` or
`index.Delete` stage, every index stage is for a created index, and no stage is
for an index listed before the call. -/
theorem C5_no_primary_key_stream {σ : Type} (ops : CatalogOps σ)
    (stmt : AlterTableAddFieldStmt) (ctx : Context σ)
    (hNoPK : ∀ tc ∈ stmt.TableConstraints, tc.PrimaryKey = false)
    (hOk : (stmt.Run ops ctx).err = none)
    (hU : ∀ cat info cat1 idx, ops.CreateIndex cat info = (cat1, Except.ok idx) →
      idx.Unique = info.Unique)
    (hFresh : ∀ idx ∈ createdIndexes ops stmt.TableName stmt.TableConstraints
        (ops.AddFieldConstraint ctx.cat stmt.TableName stmt.FieldConstraint
          stmt.TableConstraints).1,
      idx.IndexName ∉ ops.ListIndexes ctx.cat stmt.TableName) :
    ∃ ti s, ops.GetTable ctx.cat stmt.TableName = Except.ok ti ∧
      (stmt.Run ops ctx).res.Iterator = some (StreamStmtIterator.mk s) ∧
      s.Ops =
        [Operator.tableScan stmt.TableName (some ti), Operator.tableValidate stmt.TableName,
          Operator.tableReplace stmt.TableName] ++
        (createdIndexes ops stmt.TableName stmt.TableConstraints
          (ops.AddFieldConstraint ctx.cat stmt.TableName stmt.FieldConstraint
            stmt.TableConstraints).1).flatMap
          (fun idx => [Operator.indexValidate idx.IndexName,
            Operator.indexInsert idx.IndexName]) ++
        [Operator.discard] ∧
      (∀ n, Operator.tableDelete n ∉ s.Ops ∧ Operator.tableInsert n ∉ s.Ops ∧
        Operator.indexDelete n ∉ s.Ops) ∧
      (∀ op ∈ s.Ops, ∀ n, op.indexName = some n →
        ∃ idx ∈ createdIndexes ops stmt.TableName stmt.TableConstraints
          (ops.AddFieldConstraint ctx.cat stmt.TableName stmt.FieldConstraint
            stmt.TableConstraints).1, idx.IndexName = n) ∧
      (∀ n ∈ ops.ListIndexes ctx.cat stmt.TableName, ∀ op ∈ s.Ops,
        op.indexName ≠ some n) := by
  obtain ⟨ti, hg, -, -, -, -, hres⟩ := Run_ok ops stmt ctx hOk
  have hany : stmt.TableConstraints.any (fun tc => tc.PrimaryKey) = false := by
    rw [List.any_eq_false]
    intro tc htc
    simp [hNoPK tc htc]
  have huniq := createdIndexes_unique ops stmt.TableName hU stmt.TableConstraints
    (ops.AddFieldConstraint ctx.cat stmt.TableName stmt.FieldConstraint
      stmt.TableConstraints).1
  simp only [successOps, hany, Bool.false_eq_true, if_false] at hres
  generalize createdIndexes ops stmt.TableName stmt.TableConstraints
    (ops.AddFieldConstraint ctx.cat stmt.TableName stmt.FieldConstraint
      stmt.TableConstraints).1 = created at hres huniq hFresh ⊢
  have hstages : created.flatMap (fun idx => insertStages idx.Unique idx.IndexName) =
      created.flatMap (fun idx => [Operator.indexValidate idx.IndexName,
        Operator.indexInsert idx.IndexName]) := by
    clear hres hFresh
    induction created with
    | nil => rfl
    | cons idx rest ih =>
      have h1 := huniq idx (List.mem_cons_self _ _)
      have h2 := ih (fun i hi => huniq i (List.mem_cons_of_mem _ hi))
      simp only [List.flatMap_cons]
      rw [h2]
      simp [insertStages, h1]
  rw [hstages] at hres
  refine ⟨ti, _, hg, by rw [hres], rfl, ?_, ?_, ?_⟩
  · intro n
    simp
  · intro op hop n hn
    simp only [List.mem_append, List.mem_cons, List.mem_flatMap, List.mem_singleton,
      List.not_mem_nil, or_false] at hop
    rcases hop with ((rfl | rfl | rfl) | ⟨idx, hidx, rfl | rfl⟩) | rfl
    · simp [Operator.indexName] at hn
    · simp [Operator.indexName] at hn
    · simp [Operator.indexName] at hn
    · exact ⟨idx, hidx, by simpa [Operator.indexName] using hn⟩
    · exact ⟨idx, hidx, by simpa [Operator.indexName] using hn⟩
    · simp [Operator.indexName] at hn
  · intro n hn op hop hname
    simp only [List.mem_append, List.mem_cons, List.mem_flatMap, List.mem_singleton,
      List.not_mem_nil, or_false] at hop
    rcases hop with ((rfl | rfl | rfl) | ⟨idx, hidx, rfl | rfl⟩) | rfl
    · simp [Operator.indexName] at hname
    · simp [Operator.indexName] at hname
    · simp [Operator.indexName] at hname
    · have : idx.IndexName = n := by simpa [Operator.indexName] using hname
      exact hFresh idx hidx (this ▸ hn)
    · have : idx.IndexName = n := by simpa [Operator.indexName] using hname
      exact hFresh idx hidx (this ▸ hn)
    · simp [Operator.indexName] at hname

theorem C5_no_primary_key_stream_witness :
    (∀ tc ∈ sampleUniqueStmt.TableConstraints, tc.PrimaryKey = false) ∧
    (sampleUniqueStmt.Run MemCatalog.ops sampleContext).err = none ∧
    (∀ idx ∈ createdIndexes MemCatalog.ops sampleUniqueStmt.TableName
        sampleUniqueStmt.TableConstraints
        (MemCatalog.ops.AddFieldConstraint sampleContext.cat sampleUniqueStmt.TableName
          sampleUniqueStmt.FieldConstraint sampleUniqueStmt.TableConstraints).1,
      idx.IndexName ∉ MemCatalog.ops.ListIndexes sampleContext.cat sampleUniqueStmt.TableName) ∧
    ∃ ti s, MemCatalog.ops.GetTable sampleContext.cat sampleUniqueStmt.TableName =
        Except.ok ti ∧
      (sampleUniqueStmt.Run MemCatalog.ops sampleContext).res.Iterator =
        some (StreamStmtIterator.mk s) ∧
      s.Ops =
        [Operator.tableScan sampleUniqueStmt.TableName (some ti),
          Operator.tableValidate sampleUniqueStmt.TableName,
          Operator.tableReplace sampleUniqueStmt.TableName] ++
        (createdIndexes MemCatalog.ops sampleUniqueStmt.TableName
          sampleUniqueStmt.TableConstraints
          (MemCatalog.ops.AddFieldConstraint sampleContext.cat sampleUniqueStmt.TableName
            sampleUniqueStmt.FieldConstraint sampleUniqueStmt.TableConstraints).1).flatMap
          (fun idx => [Operator.indexValidate idx.IndexName,
            Operator.indexInsert idx.IndexName]) ++
        [Operator.discard] ∧
      (∀ n, Operator.tableDelete n ∉ s.Ops ∧ Operator.tableInsert n ∉ s.Ops ∧
        Operator.indexDelete n ∉ s.Ops) ∧
      (∀ op ∈ s.Ops, ∀ n, op.indexName = some n →
        ∃ idx ∈ createdIndexes MemCatalog.ops sampleUniqueStmt.TableName
          sampleUniqueStmt.TableConstraints
          (MemCatalog.ops.AddFieldConstraint sampleContext.cat sampleUniqueStmt.TableName
            sampleUniqueStmt.FieldConstraint sampleUniqueStmt.TableConstraints).1,
          idx.IndexName = n) ∧
      (∀ n ∈ MemCatalog.ops.ListIndexes sampleContext.cat sampleUniqueStmt.TableName,
        ∀ op ∈ s.Ops, op.indexName ≠ some n) :=
  ⟨by decide, by decide, by decide,
    C5_no_primary_key_stream MemCatalog.ops sampleUniqueStmt sampleContext
      (by decide) (by decide) MemCatalog.createIndex_unique (by decide)⟩

/-- The stream the unique-constraint sample builds, computed: the old index
`ix` has no stage. -/
theorem sampleUniqueStmt_stream :
    (sampleUniqueStmt.Run MemCatalog.ops sampleContext).res.Iterator =
      some (StreamStmtIterator.mk (Stream.mk
        [Operator.tableScan "t" MemCatalog.sample.tables.head?,
          Operator.tableValidate "t", Operator.tableReplace "t",
          Operator.indexValidate "t_b_idx", Operator.indexInsert "t_b_idx",
          Operator.discard])) := by
  rfl

/-- C6: when `Run` returns no error (every catalog call succeeded), the calls
it makes through the catalog writer are `AddFieldConstraint` and then one
`CreateIndex` per table constraint with `Unique` set, in constraint order, each
for an index with `Unique` true, the constraint's paths, and the statement's
table and the constraint's paths as owner; no `CreateIndex` is made for another
constraint. The loop ends with `pkAdded` true exactly when some table
constraint has `PrimaryKey` set, and the stream has the `table.Delete` stage of
the primary-key pipeline exactly then. -/
theorem C6_one_unique_index_per_unique_constraint {σ : Type} (ops : CatalogOps σ)
    (stmt : AlterTableAddFieldStmt) (ctx : Context σ)
    (hOk : (stmt.Run ops ctx).err = none) :
    (stmt.Run ops ctx).ctx.calls.filter CatalogCall.isWriterCall =
      ctx.calls.filter CatalogCall.isWriterCall ++
        CatalogCall.AddFieldConstraint stmt.TableName stmt.FieldConstraint
            stmt.TableConstraints ::
          (stmt.TableConstraints.filter (fun tc => tc.Unique)).map
            (fun tc => CatalogCall.CreateIndex
              (IndexInfo.mk "" tc.Paths true (Owner.mk stmt.TableName tc.Paths))) ∧
    (createdIndexes ops stmt.TableName stmt.TableConstraints
      (ops.AddFieldConstraint ctx.cat stmt.TableName stmt.FieldConstraint
        stmt.TableConstraints).1).length =
      (stmt.TableConstraints.filter (fun tc => tc.Unique)).length ∧
    (∀ (c c1 : Context σ) (newIdxs : List IndexInfo) (pkAdded : Bool),
      createIndexes ops stmt.TableName stmt.TableConstraints c [] false =
        (c1, Except.ok (newIdxs, pkAdded)) →
      (pkAdded = true ↔ ∃ tc ∈ stmt.TableConstraints, tc.PrimaryKey = true)) ∧
    (∃ s, (stmt.Run ops ctx).res.Iterator = some (StreamStmtIterator.mk s) ∧
      (Operator.tableDelete stmt.TableName ∈ s.Ops ↔
        ∃ tc ∈ stmt.TableConstraints, tc.PrimaryKey = true)) := by
  obtain ⟨ti, hg, -, hlen, -, hcalls, hres⟩ := Run_ok ops stmt ctx hOk
  refine ⟨?_, hlen, ?_, ?_⟩
  · rw [hcalls, List.filter_append, successCalls_writers]
    rfl
  · intro c c1 newIdxs pkAdded hc
    obtain ⟨-, -, -, h4⟩ := createIndexes_ok _ _ _ _ _ _ _ _ _ hc
    rw [h4]
    simp
  · refine ⟨_, by rw [hres], ?_⟩
    by_cases hp : stmt.TableConstraints.any (fun tc => tc.PrimaryKey) = true
    · have hex : ∃ tc ∈ stmt.TableConstraints, tc.PrimaryKey = true := by simpa using hp
      simp only [successOps, hp, if_true, hex, iff_true]
      simp
    · have hex : ¬ ∃ tc ∈ stmt.TableConstraints, tc.PrimaryKey = true := by simpa using hp
      simp only [successOps, hp, if_false, hex, iff_false]
      simp [insertStages]

theorem C6_one_unique_index_per_unique_constraint_witness :
    (samplePrimaryKeyStmt.Run MemCatalog.ops sampleContext).err = none ∧
    ((samplePrimaryKeyStmt.Run MemCatalog.ops sampleContext).ctx.calls.filter
        CatalogCall.isWriterCall =
      sampleContext.calls.filter CatalogCall.isWriterCall ++
        CatalogCall.AddFieldConstraint samplePrimaryKeyStmt.TableName
            samplePrimaryKeyStmt.FieldConstraint samplePrimaryKeyStmt.TableConstraints ::
          (samplePrimaryKeyStmt.TableConstraints.filter (fun tc => tc.Unique)).map
            (fun tc => CatalogCall.CreateIndex
              (IndexInfo.mk "" tc.Paths true
                (Owner.mk samplePrimaryKeyStmt.TableName tc.Paths))) ∧
    (createdIndexes MemCatalog.ops samplePrimaryKeyStmt.TableName
      samplePrimaryKeyStmt.TableConstraints
      (MemCatalog.ops.AddFieldConstraint sampleContext.cat samplePrimaryKeyStmt.TableName
        samplePrimaryKeyStmt.FieldConstraint samplePrimaryKeyStmt.TableConstraints).1).length =
      (samplePrimaryKeyStmt.TableConstraints.filter (fun tc => tc.Unique)).length ∧
    (∀ (c c1 : Context MemCatalog) (newIdxs : List IndexInfo) (pkAdded : Bool),
      createIndexes MemCatalog.ops samplePrimaryKeyStmt.TableName
          samplePrimaryKeyStmt.TableConstraints c [] false =
        (c1, Except.ok (newIdxs, pkAdded)) →
      (pkAdded = true ↔ ∃ tc ∈ samplePrimaryKeyStmt.TableConstraints, tc.PrimaryKey = true)) ∧
    (∃ s, (samplePrimaryKeyStmt.Run MemCatalog.ops sampleContext).res.Iterator =
        some (StreamStmtIterator.mk s) ∧
      (Operator.tableDelete samplePrimaryKeyStmt.TableName ∈ s.Ops ↔
        ∃ tc ∈ samplePrimaryKeyStmt.TableConstraints, tc.PrimaryKey = true))) :=
  ⟨by decide,
    C6_one_unique_index_per_unique_constraint MemCatalog.ops samplePrimaryKeyStmt sampleContext
      (by decide)⟩

/-! ## A run that fails -/

theorem createIndexes_of_failure {σ : Type} (ops : CatalogOps σ) (tableName : String)
    (tcs : List TableConstraint) (ctx : Context σ) (acc : List IndexInfo) (pk : Bool)
    (k : Nat) (e : Err)
    (h : firstCreateIndexFailure ops tableName tcs ctx.cat = some (k, e)) :
    createIndexes ops tableName tcs ctx acc pk =
      (Context.mk (catalogAfterCreates ops tableName tcs ctx.cat)
        (ctx.calls ++ ((tcs.filter (fun tc => tc.Unique)).take k).map
          (fun tc => CatalogCall.CreateIndex (uniqueIndexInfo tableName tc))),
        Except.error e) ∧
    (createdIndexes ops tableName tcs ctx.cat).length + 1 = k ∧
    k ≤ (tcs.filter (fun tc => tc.Unique)).length := by
  induction tcs generalizing ctx acc pk k with
  | nil => simp [firstCreateIndexFailure] at h
  | cons tc rest ih =>
    simp only [firstCreateIndexFailure] at h
    cases hu : tc.Unique with
    | false =>
      simp only [hu, Bool.false_eq_true, if_false] at h
      obtain ⟨h1, h2, h3⟩ := ih ctx acc (if tc.PrimaryKey then true else pk) k h
      refine ⟨?_, ?_, ?_⟩
      · simp only [createIndexes, hu, Bool.false_eq_true, if_false, h1, catalogAfterCreates]
        simp [hu]
      · simpa [createdIndexes, hu] using h2
      · simpa [hu] using h3
    | true =>
      simp only [hu, if_true] at h
      cases hc : ops.CreateIndex ctx.cat (uniqueIndexInfo tableName tc) with
      | mk cat1 r =>
        cases r with
        | error err =>
          simp only [hc, Option.some.injEq, Prod.mk.injEq] at h
          obtain ⟨hk, he⟩ := h
          subst hk he
          refine ⟨?_, ?_, ?_⟩
          · simp [createIndexes, hu, hc, catalogAfterCreates, Context.log]
          · simp [createdIndexes, hu, hc]
          · simp [hu]
        | ok idx =>
          simp only [hc] at h
          cases hr : firstCreateIndexFailure ops tableName rest cat1 with
          | none => simp [hr] at h
          | some p =>
            obtain ⟨k1, e1⟩ := p
            simp only [hr, Option.some.injEq, Prod.mk.injEq] at h
            obtain ⟨hk, he⟩ := h
            subst hk he
            obtain ⟨h1, h2, h3⟩ := ih
              (Context.mk cat1 (ctx.calls ++
                [CatalogCall.CreateIndex (uniqueIndexInfo tableName tc)]))
              (acc ++ [idx]) (if tc.PrimaryKey then true else pk) k1 hr
            refine ⟨?_, ?_, ?_⟩
            · simp only [createIndexes, hu, if_true, hc, Context.log, h1, catalogAfterCreates]
              simp [hu]
            · simp only at h2
              simp [createdIndexes, hu, hc, h2]
            · simp only [List.filter_cons, hu, if_true, List.length_cons]
              omega

theorem createIndexes_of_no_failure {σ : Type} (ops : CatalogOps σ) (tableName : String)
    (tcs : List TableConstraint) (ctx : Context σ) (acc : List IndexInfo) (pk : Bool)
    (h : firstCreateIndexFailure ops tableName tcs ctx.cat = none) :
    createIndexes ops tableName tcs ctx acc pk =
      (Context.mk (catalogAfterCreates ops tableName tcs ctx.cat)
        (ctx.calls ++ (tcs.filter (fun tc => tc.Unique)).map
          (fun tc => CatalogCall.CreateIndex (uniqueIndexInfo tableName tc))),
        Except.ok (acc ++ createdIndexes ops tableName tcs ctx.cat,
          pk || tcs.any (fun tc => tc.PrimaryKey))) := by
  induction tcs generalizing ctx acc pk with
  | nil => simp [createIndexes, catalogAfterCreates, createdIndexes]
  | cons tc rest ih =>
    simp only [firstCreateIndexFailure] at h
    cases hu : tc.Unique with
    | false =>
      simp only [hu, Bool.false_eq_true, if_false] at h
      simp only [createIndexes, hu, Bool.false_eq_true, if_false, ih ctx _ _ h,
        catalogAfterCreates, createdIndexes, List.any_cons]
      cases tc.PrimaryKey <;> cases pk <;> simp [hu]
    | true =>
      simp only [hu, if_true] at h
      cases hc : ops.CreateIndex ctx.cat (uniqueIndexInfo tableName tc) with
      | mk cat1 r =>
        cases r with
        | error err => simp [hc] at h
        | ok idx =>
          simp only [hc] at h
          cases hr : firstCreateIndexFailure ops tableName rest cat1 with
          | some p => simp [hr] at h
          | none =>
            have h1 := ih
              (Context.mk cat1 (ctx.calls ++
                [CatalogCall.CreateIndex (uniqueIndexInfo tableName tc)]))
              (acc ++ [idx]) (if tc.PrimaryKey then true else pk) hr
            simp only [createIndexes, hu, if_true, hc, Context.log, h1, catalogAfterCreates,
              createdIndexes, List.any_cons]
            cases tc.PrimaryKey <;> cases pk <;> simp [hu]

theorem pipeIndexInserts_of_failure {σ : Type} (ops : CatalogOps σ)
    (pre : List String) (n : String) (post : List String) (e : Err)
    (ctx : Context σ) (s : Stream)
    (hpre : ∀ m ∈ pre, ∃ info, ops.GetIndexInfo ctx.cat m = Except.ok info)
    (hn : ops.GetIndexInfo ctx.cat n = Except.error e) :
    pipeIndexInserts ops (pre ++ n :: post) ctx s =
      (Context.mk ctx.cat (ctx.calls ++ (pre ++ [n]).map CatalogCall.GetIndexInfo),
        Except.error e) := by
  induction pre generalizing ctx s with
  | nil => simp [pipeIndexInserts, hn, Context.log]
  | cons m rest ih =>
    obtain ⟨info, hm⟩ := hpre m (List.mem_cons_self _ _)
    have hrest : ∀ x ∈ rest, ∃ info, ops.GetIndexInfo ctx.cat x = Except.ok info :=
      fun x hx => hpre x (List.mem_cons_of_mem _ hx)
    simp only [List.cons_append, pipeIndexInserts, hm, Context.log, List.append_eq]
    rw [ih (Context.mk ctx.cat (ctx.calls ++ [CatalogCall.GetIndexInfo m])) _ hrest hn]
    simp

theorem Run_error_or_stream {σ : Type} (ops : CatalogOps σ) (stmt : AlterTableAddFieldStmt)
    (ctx : Context σ) :
    ((stmt.Run ops ctx).err = none ∧ (stmt.Run ops ctx).res.Iterator ≠ none) ∨
    ((stmt.Run ops ctx).err ≠ none ∧ (stmt.Run ops ctx).res.Iterator = none) := by
  unfold AlterTableAddFieldStmt.Run
  simp only [Context.log]
  cases ops.GetTable ctx.cat stmt.TableName with
  | error e => simp
  | ok ti =>
    simp only
    cases (ops.AddFieldConstraint ctx.cat stmt.TableName stmt.FieldConstraint
        stmt.TableConstraints).2 with
    | some e => simp
    | none =>
      simp only
      generalize createIndexes ops stmt.TableName stmt.TableConstraints _ [] false = ci
      obtain ⟨c2, r⟩ := ci
      cases r with
      | error e => simp
      | ok p =>
        obtain ⟨idxs, pk⟩ := p
        cases pk with
        | false => simp
        | true =>
          simp only [if_true]
          generalize pipeIndexInserts ops _ _ _ = pi
          obtain ⟨c3, r3⟩ := pi
          cases r3 <;> simp

/-- C11: `AlterTableAddFieldStmt.Run` stops at its first failing catalog call
and returns that error with a result that has no iterator. If `GetTable`
fails, the error is wrapped with "failed to get table" and `GetTable` is the
only call made. If `AddFieldConstraint` fails, the calls made are `GetTable`,
`ListIndexes` and `AddFieldConstraint`: no `CreateIndex`. If the `k`-th
`CreateIndex` fails, the `CreateIndex` calls made are the first `k`, the
`k - 1` earlier ones created their indexes, and no stream is built. If, on the
primary-key path, `GetIndexInfo` fails for an index name, the names before it
were read and none after it. -/
theorem C11_run_stops_at_first_failing_call {σ : Type} (ops : CatalogOps σ)
    (stmt : AlterTableAddFieldStmt) (ctx : Context σ) :
    (∀ e, (stmt.Run ops ctx).err = some e → (stmt.Run ops ctx).res.Iterator = none) ∧
    (∀ e, ops.GetTable ctx.cat stmt.TableName = Except.error e →
      (stmt.Run ops ctx).err = some (Err.Wrap e "failed to get table") ∧
      (stmt.Run ops ctx).res.Iterator = none ∧
      (stmt.Run ops ctx).ctx.calls = ctx.calls ++ [CatalogCall.GetTable stmt.TableName] ∧
      (stmt.Run ops ctx).ctx.cat = ctx.cat) ∧
    (∀ ti e, ops.GetTable ctx.cat stmt.TableName = Except.ok ti →
      (ops.AddFieldConstraint ctx.cat stmt.TableName stmt.FieldConstraint
        stmt.TableConstraints).2 = some e →
      (stmt.Run ops ctx).err = some e ∧
      (stmt.Run ops ctx).res.Iterator = none ∧
      (stmt.Run ops ctx).ctx.calls = ctx.calls ++
        [CatalogCall.GetTable stmt.TableName, CatalogCall.ListIndexes stmt.TableName,
          CatalogCall.AddFieldConstraint stmt.TableName stmt.FieldConstraint
            stmt.TableConstraints] ∧
      (stmt.Run ops ctx).ctx.cat =
        (ops.AddFieldConstraint ctx.cat stmt.TableName stmt.FieldConstraint
          stmt.TableConstraints).1) ∧
    (∀ ti k e, ops.GetTable ctx.cat stmt.TableName = Except.ok ti →
      (ops.AddFieldConstraint ctx.cat stmt.TableName stmt.FieldConstraint
        stmt.TableConstraints).2 = none →
      firstCreateIndexFailure ops stmt.TableName stmt.TableConstraints
        (ops.AddFieldConstraint ctx.cat stmt.TableName stmt.FieldConstraint
          stmt.TableConstraints).1 = some (k, e) →
      (stmt.Run ops ctx).err = some e ∧
      (stmt.Run ops ctx).res.Iterator = none ∧
      (stmt.Run ops ctx).ctx.calls = ctx.calls ++
        [CatalogCall.GetTable stmt.TableName, CatalogCall.ListIndexes stmt.TableName,
          CatalogCall.AddFieldConstraint stmt.TableName stmt.FieldConstraint
            stmt.TableConstraints] ++
        ((stmt.TableConstraints.filter (fun tc => tc.Unique)).take k).map
          (fun tc => CatalogCall.CreateIndex (uniqueIndexInfo stmt.TableName tc)) ∧
      (createdIndexes ops stmt.TableName stmt.TableConstraints
        (ops.AddFieldConstraint ctx.cat stmt.TableName stmt.FieldConstraint
          stmt.TableConstraints).1).length + 1 = k ∧
      k ≤ (stmt.TableConstraints.filter (fun tc => tc.Unique)).length) ∧
    (∀ ti pre n post e, ops.GetTable ctx.cat stmt.TableName = Except.ok ti →
      (ops.AddFieldConstraint ctx.cat stmt.TableName stmt.FieldConstraint
        stmt.TableConstraints).2 = none →
      firstCreateIndexFailure ops stmt.TableName stmt.TableConstraints
        (ops.AddFieldConstraint ctx.cat stmt.TableName stmt.FieldConstraint
          stmt.TableConstraints).1 = none →
      (∃ tc ∈ stmt.TableConstraints, tc.PrimaryKey = true) →
      ops.ListIndexes
        (catalogAfterCreates ops stmt.TableName stmt.TableConstraints
          (ops.AddFieldConstraint ctx.cat stmt.TableName stmt.FieldConstraint
            stmt.TableConstraints).1) stmt.TableName = pre ++ n :: post →
      (∀ m ∈ pre, ∃ info, ops.GetIndexInfo
        (catalogAfterCreates ops stmt.TableName stmt.TableConstraints
          (ops.AddFieldConstraint ctx.cat stmt.TableName stmt.FieldConstraint
            stmt.TableConstraints).1) m = Except.ok info) →
      ops.GetIndexInfo
        (catalogAfterCreates ops stmt.TableName stmt.TableConstraints
          (ops.AddFieldConstraint ctx.cat stmt.TableName stmt.FieldConstraint
            stmt.TableConstraints).1) n = Except.error e →
      (stmt.Run ops ctx).err = some e ∧
      (stmt.Run ops ctx).res.Iterator = none ∧
      (stmt.Run ops ctx).ctx.calls = ctx.calls ++
        [CatalogCall.GetTable stmt.TableName, CatalogCall.ListIndexes stmt.TableName,
          CatalogCall.AddFieldConstraint stmt.TableName stmt.FieldConstraint
            stmt.TableConstraints] ++
        (stmt.TableConstraints.filter (fun tc => tc.Unique)).map
          (fun tc => CatalogCall.CreateIndex (uniqueIndexInfo stmt.TableName tc)) ++
        CatalogCall.ListIndexes stmt.TableName ::
          (pre ++ [n]).map CatalogCall.GetIndexInfo) := by
  have hempty : ∀ e, (stmt.Run ops ctx).err = some e →
      (stmt.Run ops ctx).res.Iterator = none := by
    intro e he
    rcases Run_error_or_stream ops stmt ctx with ⟨h1, -⟩ | ⟨-, h2⟩
    · rw [h1] at he
      cases he
    · exact h2
  refine ⟨hempty, ?_, ?_, ?_, ?_⟩
  · intro e hg
    have herr : (stmt.Run ops ctx).err = some (Err.Wrap e "failed to get table") := by
      simp [AlterTableAddFieldStmt.Run, Context.log, hg]
    refine ⟨herr, hempty _ herr, ?_, ?_⟩ <;>
      simp [AlterTableAddFieldStmt.Run, Context.log, hg]
  · intro ti e hg ha
    have herr : (stmt.Run ops ctx).err = some e := by
      simp [AlterTableAddFieldStmt.Run, Context.log, hg, ha]
    refine ⟨herr, hempty _ herr, ?_, ?_⟩ <;>
      simp [AlterTableAddFieldStmt.Run, Context.log, hg, ha]
  · intro ti k e hg ha hf
    obtain ⟨hc, hlen, hle⟩ := createIndexes_of_failure ops stmt.TableName
      stmt.TableConstraints
      (Context.mk (ops.AddFieldConstraint ctx.cat stmt.TableName stmt.FieldConstraint
          stmt.TableConstraints).1
        (ctx.calls ++ [CatalogCall.GetTable stmt.TableName] ++
          [CatalogCall.ListIndexes stmt.TableName] ++
          [CatalogCall.AddFieldConstraint stmt.TableName stmt.FieldConstraint
            stmt.TableConstraints])) [] false k e hf
    have herr : (stmt.Run ops ctx).err = some e := by
      simp only [AlterTableAddFieldStmt.Run, Context.log, hg, ha, hc]
    refine ⟨herr, hempty _ herr, ?_, hlen, hle⟩
    simp only [AlterTableAddFieldStmt.Run, Context.log, hg, ha, hc]
    simp
  · intro ti pre n post e hg ha hf hpk hlist hpre hn
    have hc := createIndexes_of_no_failure ops stmt.TableName stmt.TableConstraints
      (Context.mk (ops.AddFieldConstraint ctx.cat stmt.TableName stmt.FieldConstraint
          stmt.TableConstraints).1
        (ctx.calls ++ [CatalogCall.GetTable stmt.TableName] ++
          [CatalogCall.ListIndexes stmt.TableName] ++
          [CatalogCall.AddFieldConstraint stmt.TableName stmt.FieldConstraint
            stmt.TableConstraints])) [] false hf
    have hany : stmt.TableConstraints.any (fun tc => tc.PrimaryKey) = true := by
      simpa using hpk
    have herr : (stmt.Run ops ctx).err = some e := by
      simp only [AlterTableAddFieldStmt.Run, Context.log, hg, ha, hc, hany, Bool.false_or,
        if_true, hlist]
      rw [pipeIndexInserts_of_failure ops pre n post e _ _ hpre hn]
    refine ⟨herr, hempty _ herr, ?_⟩
    simp only [AlterTableAddFieldStmt.Run, Context.log, hg, ha, hc, hany, Bool.false_or,
      if_true, hlist]
    rw [pipeIndexInserts_of_failure ops pre n post e _ _ hpre hn]
    simp

theorem C11_run_stops_at_first_failing_call_witness :
    (MemCatalog.ops.GetTable sampleContext.cat sampleMissingTableStmt.TableName =
        Except.error (Err.New "table not found") ∧
      (sampleMissingTableStmt.Run MemCatalog.ops sampleContext).err =
        some (Err.Wrap (Err.New "table not found") "failed to get table") ∧
      (sampleMissingTableStmt.Run MemCatalog.ops sampleContext).res.Iterator = none ∧
      (sampleMissingTableStmt.Run MemCatalog.ops sampleContext).ctx.calls =
        sampleContext.calls ++ [CatalogCall.GetTable sampleMissingTableStmt.TableName] ∧
      (sampleMissingTableStmt.Run MemCatalog.ops sampleContext).ctx.cat = sampleContext.cat) ∧
    ((MemCatalog.strictOps.AddFieldConstraint sampleContext.cat
          sampleDuplicateFieldStmt.TableName sampleDuplicateFieldStmt.FieldConstraint
          sampleDuplicateFieldStmt.TableConstraints).2 = some (Err.AlreadyExistsError "a") ∧
      (sampleDuplicateFieldStmt.Run MemCatalog.strictOps sampleContext).err =
        some (Err.AlreadyExistsError "a") ∧
      (sampleDuplicateFieldStmt.Run MemCatalog.strictOps sampleContext).res.Iterator = none ∧
      (sampleDuplicateFieldStmt.Run MemCatalog.strictOps sampleContext).ctx.calls =
        sampleContext.calls ++
          [CatalogCall.GetTable sampleDuplicateFieldStmt.TableName,
            CatalogCall.ListIndexes sampleDuplicateFieldStmt.TableName,
            CatalogCall.AddFieldConstraint sampleDuplicateFieldStmt.TableName
              sampleDuplicateFieldStmt.FieldConstraint
              sampleDuplicateFieldStmt.TableConstraints] ∧
      (sampleDuplicateFieldStmt.Run MemCatalog.strictOps sampleContext).ctx.cat =
        (MemCatalog.strictOps.AddFieldConstraint sampleContext.cat
          sampleDuplicateFieldStmt.TableName sampleDuplicateFieldStmt.FieldConstraint
          sampleDuplicateFieldStmt.TableConstraints).1) ∧
    (firstCreateIndexFailure MemCatalog.ops sampleTwiceUniqueStmt.TableName
          sampleTwiceUniqueStmt.TableConstraints
          (MemCatalog.ops.AddFieldConstraint sampleContext.cat sampleTwiceUniqueStmt.TableName
            sampleTwiceUniqueStmt.FieldConstraint sampleTwiceUniqueStmt.TableConstraints).1 =
        some (2, Err.AlreadyExistsError "t_b_idx") ∧
      (sampleTwiceUniqueStmt.Run MemCatalog.ops sampleContext).err =
        some (Err.AlreadyExistsError "t_b_idx") ∧
      (sampleTwiceUniqueStmt.Run MemCatalog.ops sampleContext).res.Iterator = none ∧
      (sampleTwiceUniqueStmt.Run MemCatalog.ops sampleContext).ctx.calls =
        sampleContext.calls ++
          [CatalogCall.GetTable sampleTwiceUniqueStmt.TableName,
            CatalogCall.ListIndexes sampleTwiceUniqueStmt.TableName,
            CatalogCall.AddFieldConstraint sampleTwiceUniqueStmt.TableName
              sampleTwiceUniqueStmt.FieldConstraint sampleTwiceUniqueStmt.TableConstraints] ++
          ((sampleTwiceUniqueStmt.TableConstraints.filter (fun tc => tc.Unique)).take 2).map
            (fun tc => CatalogCall.CreateIndex
              (uniqueIndexInfo sampleTwiceUniqueStmt.TableName tc)) ∧
      (createdIndexes MemCatalog.ops sampleTwiceUniqueStmt.TableName
        sampleTwiceUniqueStmt.TableConstraints
        (MemCatalog.ops.AddFieldConstraint sampleContext.cat sampleTwiceUniqueStmt.TableName
          sampleTwiceUniqueStmt.FieldConstraint
          sampleTwiceUniqueStmt.TableConstraints).1).length + 1 = 2 ∧
      2 ≤ (sampleTwiceUniqueStmt.TableConstraints.filter (fun tc => tc.Unique)).length) ∧
    (MemCatalog.staleOps.GetIndexInfo
          (catalogAfterCreates MemCatalog.staleOps samplePrimaryKeyStmt.TableName
            samplePrimaryKeyStmt.TableConstraints
            (MemCatalog.staleOps.AddFieldConstraint sampleContext.cat
              samplePrimaryKeyStmt.TableName samplePrimaryKeyStmt.FieldConstraint
              samplePrimaryKeyStmt.TableConstraints).1) "t_b_idx" =
        Except.error (Err.New "index not found") ∧
      (samplePrimaryKeyStmt.Run MemCatalog.staleOps sampleContext).err =
        some (Err.New "index not found") ∧
      (samplePrimaryKeyStmt.Run MemCatalog.staleOps sampleContext).res.Iterator = none ∧
      (samplePrimaryKeyStmt.Run MemCatalog.staleOps sampleContext).ctx.calls =
        sampleContext.calls ++
          [CatalogCall.GetTable samplePrimaryKeyStmt.TableName,
            CatalogCall.ListIndexes samplePrimaryKeyStmt.TableName,
            CatalogCall.AddFieldConstraint samplePrimaryKeyStmt.TableName
              samplePrimaryKeyStmt.FieldConstraint samplePrimaryKeyStmt.TableConstraints] ++
          (samplePrimaryKeyStmt.TableConstraints.filter (fun tc => tc.Unique)).map
            (fun tc => CatalogCall.CreateIndex
              (uniqueIndexInfo samplePrimaryKeyStmt.TableName tc)) ++
          CatalogCall.ListIndexes samplePrimaryKeyStmt.TableName ::
            (["ix"] ++ ["t_b_idx"]).map CatalogCall.GetIndexInfo) :=
  ⟨⟨rfl,
      (C11_run_stops_at_first_failing_call MemCatalog.ops sampleMissingTableStmt
        sampleContext).2.1 (Err.New "table not found") rfl⟩,
    ⟨rfl,
      (C11_run_stops_at_first_failing_call MemCatalog.strictOps sampleDuplicateFieldStmt
        sampleContext).2.2.1 _ (Err.AlreadyExistsError "a") rfl rfl⟩,
    ⟨rfl,
      (C11_run_stops_at_first_failing_call MemCatalog.ops sampleTwiceUniqueStmt
        sampleContext).2.2.2.1 _ 2 (Err.AlreadyExistsError "t_b_idx") rfl rfl rfl⟩,
    ⟨rfl,
      (C11_run_stops_at_first_failing_call MemCatalog.staleOps samplePrimaryKeyStmt
        sampleContext).2.2.2.2 _ ["ix"] "t_b_idx" [] (Err.New "index not found") rfl rfl rfl
        (by decide) rfl
        (by
          intro m hm
          rw [List.mem_singleton] at hm
          subst hm
          exact ⟨_, rfl⟩)
        rfl⟩⟩

/-- The run of `sampleTwiceUniqueStmt`, computed: two `CreateIndex` calls were
made, the first created `t_b_idx`, the second failed on that name, and the
result has no iterator. -/
theorem sampleTwiceUniqueStmt_run :
    (sampleTwiceUniqueStmt.Run MemCatalog.ops sampleContext).err =
      some (Err.AlreadyExistsError "t_b_idx") ∧
    (sampleTwiceUniqueStmt.Run MemCatalog.ops sampleContext).res.Iterator = none ∧
    ((sampleTwiceUniqueStmt.Run MemCatalog.ops sampleContext).ctx.calls.filter
      CatalogCall.isWriterCall).length = 3 ∧
    MemCatalog.ops.ListIndexes
      (sampleTwiceUniqueStmt.Run MemCatalog.ops sampleContext).ctx.cat "t" =
      ["ix", "t_b_idx"] :=
  ⟨rfl, rfl, rfl, rfl⟩

end statement

namespace database

/-! ## Reading back an encoded document -/

theorem untypedElems_eq_map (elems : List Value) :
    untypedElems elems = elems.map Value.untyped := by
  induction elems with
  | nil => rfl
  | cons v rest ih => simp [untypedElems, ih]

theorem untypedFields_eq_map (fields : Document) :
    untypedFields fields = fields.map (fun f => (f.1, f.2.untyped)) := by
  induction fields with
  | nil => rfl
  | cons f rest ih =>
    obtain ⟨n, v⟩ := f
    simp [untypedFields, ih]

mutual
theorem decodeValue_encodeValue : ∀ (v : Value) (fuel : Nat) (rest : List Cell),
    v.fuel ≤ fuel → decodeValue fuel (encodeValue v ++ rest) = some (v, rest)
  | Value.Null, fuel + 1, rest, _ => by simp [encodeValue, decodeValue]
  | Value.Boolean b, fuel + 1, rest, _ => by simp [encodeValue, decodeValue]
  | Value.Integer i, fuel + 1, rest, _ => by simp [encodeValue, decodeValue]
  | Value.Double d, fuel + 1, rest, _ => by simp [encodeValue, decodeValue]
  | Value.Text s, fuel + 1, rest, _ => by simp [encodeValue, decodeValue]
  | Value.Blob b, fuel + 1, rest, _ => by simp [encodeValue, decodeValue]
  | Value.Array elems, fuel + 1, rest, h => by
    have h1 : fuelElems elems ≤ fuel := by simp [Value.fuel] at h; exact h
    simp [encodeValue, decodeValue, decodeElems_encodeElems elems fuel rest h1]
  | Value.Document fields, fuel + 1, rest, h => by
    have h1 : fuelNamed fields ≤ fuel := by simp [Value.fuel] at h; exact h
    simp [encodeValue, decodeValue, decodeNamed_encodeNamed fields fuel rest h1]
  | v, 0, rest, h => by
    cases v <;> simp [Value.fuel] at h
theorem decodeElems_encodeElems : ∀ (elems : List Value) (fuel : Nat) (rest : List Cell),
    fuelElems elems ≤ fuel →
    decodeElems fuel elems.length (encodeElems elems ++ rest) = some (elems, rest)
  | [], fuel, rest, _ => by cases fuel <;> simp [encodeElems, decodeElems]
  | v :: vs, 0, rest, h => by simp [fuelElems] at h
  | v :: vs, fuel + 1, rest, h => by
    have h1 : v.fuel ≤ fuel := by simp [fuelElems] at h; omega
    have h2 : fuelElems vs ≤ fuel := by simp [fuelElems] at h; omega
    simp [encodeElems, decodeElems, List.append_assoc,
      decodeValue_encodeValue v fuel _ h1, decodeElems_encodeElems vs fuel rest h2]
theorem decodeNamed_encodeNamed : ∀ (fields : Document) (fuel : Nat)
    (rest : List Cell), fuelNamed fields ≤ fuel →
    decodeNamed fuel fields.length (encodeNamed fields ++ rest) = some (fields, rest)
  | [], fuel, rest, _ => by cases fuel <;> simp [encodeNamed, decodeNamed]
  | (n, v) :: fs, 0, rest, h => by simp [fuelNamed] at h
  | (n, v) :: fs, fuel + 1, rest, h => by
    have h1 : v.fuel ≤ fuel := by simp [fuelNamed] at h; omega
    have h2 : fuelNamed fs ≤ fuel := by simp [fuelNamed] at h; omega
    simp [encodeNamed, decodeNamed, List.append_assoc,
      decodeValue_encodeValue v fuel _ h1, decodeNamed_encodeNamed fs fuel rest h2]
end

mutual
theorem Value.fuel_le : ∀ v : Value, v.fuel + 1 ≤ 2 * (encodeValue v).length
  | Value.Null => by simp [Value.fuel, encodeValue]
  | Value.Boolean _ => by simp [Value.fuel, encodeValue]
  | Value.Integer _ => by simp [Value.fuel, encodeValue]
  | Value.Double _ => by simp [Value.fuel, encodeValue]
  | Value.Text _ => by simp [Value.fuel, encodeValue]
  | Value.Blob _ => by simp [Value.fuel, encodeValue]
  | Value.Array elems => by
    have := fuelElems_le elems
    simp [Value.fuel, encodeValue]
    omega
  | Value.Document fields => by
    have := fuelNamed_le fields
    simp [Value.fuel, encodeValue]
    omega
theorem fuelElems_le : ∀ elems : List Value, fuelElems elems ≤ 2 * (encodeElems elems).length
  | [] => by simp [fuelElems]
  | v :: rest => by
    have h1 := Value.fuel_le v
    have h2 := fuelElems_le rest
    simp [fuelElems, encodeElems]
    omega
theorem fuelNamed_le : ∀ fields : Document,
    fuelNamed fields ≤ 2 * (encodeNamed fields).length
  | [] => by simp [fuelNamed]
  | (_, v) :: rest => by
    have h1 := Value.fuel_le v
    have h2 := fuelNamed_le rest
    simp [fuelNamed, encodeNamed]
    omega
end

/-- A self-describing value is read back with the fuel `decodeField` gives. -/
theorem decodeValue_encodeValue_length (v : Value) (rest : List Cell) :
    decodeValue (2 * (encodeValue v ++ rest).length) (encodeValue v ++ rest) = some (v, rest) := by
  apply decodeValue_encodeValue
  have := Value.fuel_le v
  simp only [List.length_append]
  omega

theorem decodeNamed_encodeNamed_length (fields : Document) (rest : List Cell) :
    decodeNamed (2 * (encodeNamed fields ++ rest).length) fields.length
      (encodeNamed fields ++ rest) = some (fields, rest) := by
  apply decodeNamed_encodeNamed
  have := fuelNamed_le fields
  simp only [List.length_append]
  omega

/-- The head of a self-describing encoding is never the marker of a nested
positional document. -/
theorem encodeValue_head (v : Value) :
    ∃ c tail, encodeValue v = c :: tail ∧ c ≠ Cell.Nested := by
  cases v <;> simp [encodeValue]

theorem layoutFields_append (ordered : List FieldConstraint)
    (declared extras : Document) (h : declared.length = ordered.length) :
    layoutFields ordered (declared ++ extras) = layoutFields ordered declared := by
  induction ordered generalizing declared with
  | nil => simp [layoutFields]
  | cons fc rest ih =>
    cases declared with
    | nil => simp at h
    | cons f fs =>
      obtain ⟨n, v⟩ := f
      simp only [List.length_cons, Nat.add_right_cancel_iff] at h
      simp [layoutFields, ih fs h]

mutual
theorem decodeDocument_layoutDocument : ∀ (fcs : FieldConstraints)
    (doc fields : Document) (rest : List Cell),
    coerceDocument fcs doc = Except.ok fields →
    decodeDocument fcs (layoutDocument fcs fields ++ rest) = some (fields, rest)
  | FieldConstraints.mk ordered allow, doc, fields, rest, h => by
    unfold coerceDocument at h
    cases hd : coerceFields ordered doc with
    | error e => simp [hd] at h
    | ok declared =>
      obtain ⟨hlen, hdec⟩ := decodeFields_layoutFields ordered doc declared hd
      simp only [hd] at h
      cases allow with
      | true =>
        simp only [if_true, Except.ok.injEq] at h
        subst h
        unfold layoutDocument decodeDocument
        have hdrop : (declared ++ untypedFields (extraFields ordered doc)).drop ordered.length =
            untypedFields (extraFields ordered doc) := by
          rw [← hlen]; simp
        rw [layoutFields_append _ _ _ hlen, hdrop]
        simp only [if_true, List.append_assoc, hdec, List.cons_append]
        rw [decodeNamed_encodeNamed_length]
      | false =>
        simp only [Bool.false_eq_true, if_false] at h
        cases hx : extraFields ordered doc with
        | cons x xs =>
          obtain ⟨n, v⟩ := x
          simp [hx] at h
        | nil =>
          simp only [hx, Except.ok.injEq] at h
          subst h
          unfold layoutDocument decodeDocument
          simp [hdec]
theorem decodeFields_layoutFields : ∀ (ordered : List FieldConstraint)
    (doc declared : Document),
    coerceFields ordered doc = Except.ok declared →
    declared.length = ordered.length ∧
    ∀ rest : List Cell,
      decodeFields ordered (layoutFields ordered declared ++ rest) = some (declared, rest)
  | [], doc, declared, h => by
    unfold coerceFields at h
    simp only [Except.ok.injEq] at h
    subst h
    simp [layoutFields, decodeFields]
  | fc :: more, doc, declared, h => by
    unfold coerceFields at h
    cases hf : coerceField fc doc with
    | error e => simp [hf] at h
    | ok f =>
      cases hm : coerceFields more doc with
      | error e => simp [hf, hm] at h
      | ok fs =>
        simp only [hf, hm, Except.ok.injEq] at h
        subst h
        obtain ⟨hlen, hdec⟩ := decodeFields_layoutFields more doc fs hm
        have hone := decodeField_layoutField fc doc f
        refine ⟨by simp [hlen], ?_⟩
        intro rest
        obtain ⟨n, v⟩ := f
        unfold layoutFields decodeFields
        simp only [List.append_assoc]
        rw [hone _ hf]
        simp only [hdec]
theorem decodeField_layoutField : ∀ (fc : FieldConstraint) (doc : Document)
    (f : String × Value) (rest : List Cell),
    coerceField fc doc = Except.ok f →
    decodeField fc (layoutField fc f.2 ++ rest) = some (f, rest)
  | FieldConstraint.mk pos field kind notNull dflt anon, doc, f, rest, h => by
    have scalar : ∀ v : Value, (∀ fs, v ≠ Value.Document fs) →
        decodeField (FieldConstraint.mk pos field kind notNull dflt anon)
          (layoutField (FieldConstraint.mk pos field kind notNull dflt anon) v ++ rest) =
          some ((field, v), rest) := by
      intro v hv
      have hl : layoutField (FieldConstraint.mk pos field kind notNull dflt anon) v =
          encodeValue v := by
        cases v <;> first | rfl | exact absurd rfl (hv _)
      obtain ⟨c, tail, hc, hne⟩ := encodeValue_head v
      have hr := decodeValue_encodeValue_length v rest
      rw [hl]
      rw [hc] at hr ⊢
      simp only [List.cons_append] at hr ⊢
      cases c <;> first
        | exact absurd rfl hne
        | simp only [decodeField, hr, FieldConstraint.Field]
    unfold coerceField at h
    split at h
    · cases h
    · split at h
      all_goals first
        | (cases h; done)
        | (cases h; exact scalar _ (by intro fs hfs; cases hfs))
        | skip
      · rename_i raw _
        cases hn : coerceNested anon raw with
        | error e => simp [hn] at h
        | ok fs =>
          simp only [hn, Except.ok.injEq] at h
          subst h
          exact decodeField_layoutNested anon pos field _ notNull dflt raw fs rest hn
theorem decodeField_layoutNested : ∀ (anon : Option FieldConstraints) (pos : Nat)
    (field : String) (kind : ValueType) (notNull : Bool) (dflt : Option Value)
    (raw fs : Document) (rest : List Cell),
    coerceNested anon raw = Except.ok fs →
    decodeField (FieldConstraint.mk pos field kind notNull dflt anon)
      (layoutField (FieldConstraint.mk pos field kind notNull dflt anon) (Value.Document fs)
        ++ rest) = some ((field, Value.Document fs), rest)
  | none, pos, field, kind, notNull, dflt, raw, fs, rest, h => by
    have hr := decodeValue_encodeValue_length (Value.Document fs) rest
    simp only [layoutField, layoutNested]
    simp only [encodeValue, List.cons_append] at hr ⊢
    simp only [decodeField, hr, FieldConstraint.Field]
  | some sub, pos, field, kind, notNull, dflt, raw, fs, rest, h => by
    have hsub := decodeDocument_layoutDocument sub raw fs rest h
    simp [layoutField, layoutNested, decodeField, decodeNested, hsub]
end

/-! ## What coercion does to a field -/

theorem coerceField_name_kind (fc : FieldConstraint) (doc : Document) (f : String × Value)
    (h : coerceField fc doc = Except.ok f) :
    f.1 = fc.Field ∧ (f.2 = Value.Null ∨ f.2.Kind = fc.Kind) := by
  obtain ⟨pos, field, kind, notNull, dflt, anon⟩ := fc
  unfold coerceField at h
  split at h
  · cases h
  · split at h
    all_goals first
      | (cases h; done)
      | (cases h; simp [FieldConstraint.Field, FieldConstraint.Kind, Value.Kind])
      | skip
    · rename_i raw _
      cases hn : coerceNested anon raw with
      | error e => simp [hn] at h
      | ok fs =>
        simp only [hn, Except.ok.injEq] at h
        subst h
        simp [FieldConstraint.Field, FieldConstraint.Kind, Value.Kind]

theorem coerceField_default (fc : FieldConstraint) (doc : Document) (dv : Value)
    (habsent : getByField fc.Field doc = none) (hd : fc.DefaultValue = some dv) :
    coerceField fc doc = coerceField fc [(fc.Field, dv)] := by
  obtain ⟨pos, field, kind, notNull, dflt, anon⟩ := fc
  simp only [FieldConstraint.Field, FieldConstraint.DefaultValue] at habsent hd
  subst hd
  have h1 : fieldOrDefault field (some dv) doc = dv := by
    simp [fieldOrDefault, habsent]
  have h2 : fieldOrDefault field (some dv) [(field, dv)] = dv := by
    simp [fieldOrDefault, getByField]
  unfold coerceField
  simp only [FieldConstraint.Field]
  rw [h1, h2]

theorem coerceField_integer (fc : FieldConstraint) (doc : Document) (i : Int)
    (hk : fc.Kind = ValueType.IntegerValue)
    (hv : getByField fc.Field doc = some (Value.Integer i)) :
    coerceField fc doc = Except.ok (fc.Field, Value.Integer i) := by
  obtain ⟨pos, field, kind, notNull, dflt, anon⟩ := fc
  simp only [FieldConstraint.Field, FieldConstraint.Kind] at hk hv
  subst hk
  have h1 : fieldOrDefault field dflt doc = Value.Integer i := by
    simp [fieldOrDefault, hv]
  unfold coerceField
  rw [h1]
  simp [Value.isNull, FieldConstraint.Field]

theorem coerceField_integer_to_double (fc : FieldConstraint) (doc : Document) (i : Int)
    (hk : fc.Kind = ValueType.DoubleValue)
    (hv : getByField fc.Field doc = some (Value.Integer i)) :
    coerceField fc doc = Except.ok (fc.Field, Value.Double (Float64.ofInt i)) := by
  obtain ⟨pos, field, kind, notNull, dflt, anon⟩ := fc
  simp only [FieldConstraint.Field, FieldConstraint.Kind] at hk hv
  subst hk
  have h1 : fieldOrDefault field dflt doc = Value.Integer i := by
    simp [fieldOrDefault, hv]
  unfold coerceField
  rw [h1]
  simp [Value.isNull, FieldConstraint.Field]

theorem coerceFields_forall₂ (ordered : List FieldConstraint) (doc declared : Document)
    (h : coerceFields ordered doc = Except.ok declared) :
    List.Forall₂ (fun fc f => coerceField fc doc = Except.ok f) ordered declared := by
  induction ordered generalizing declared with
  | nil =>
    unfold coerceFields at h
    cases h
    exact List.Forall₂.nil
  | cons fc rest ih =>
    unfold coerceFields at h
    cases hf : coerceField fc doc with
    | error e => simp [hf] at h
    | ok f =>
      cases hm : coerceFields rest doc with
      | error e => simp [hf, hm] at h
      | ok fs =>
        simp only [hf, hm, Except.ok.injEq] at h
        subst h
        exact List.Forall₂.cons hf (ih fs hm)

theorem coerceDocument_split (fcs : FieldConstraints) (doc fields : Document)
    (h : coerceDocument fcs doc = Except.ok fields) :
    ∃ declared, coerceFields fcs.Ordered doc = Except.ok declared ∧
      fields = declared ++
        (if fcs.AllowExtraFields then
          (extraFields fcs.Ordered doc).map (fun f => (f.1, f.2.untyped))
        else []) := by
  obtain ⟨ordered, allow⟩ := fcs
  unfold coerceDocument at h
  simp only [FieldConstraints.Ordered, FieldConstraints.AllowExtraFields]
  cases hd : coerceFields ordered doc with
  | error e => simp [hd] at h
  | ok declared =>
    simp only [hd] at h
    refine ⟨declared, rfl, ?_⟩
    cases allow with
    | true =>
      simp only [if_true, Except.ok.injEq] at h
      rw [← h, untypedFields_eq_map]
      rfl
    | false =>
      simp only [Bool.false_eq_true, if_false] at h
      cases hx : extraFields ordered doc with
      | cons x xs =>
        obtain ⟨n, v⟩ := x
        simp [hx] at h
      | nil =>
        simp only [hx, Except.ok.injEq] at h
        simp [h]

/-! ## Encoding then decoding -/

/-- C7: for every table and every document that `EncodeDocument` accepts with
the blob `cells`, `NewEncodedDocument` with the same field constraints reads
`cells` back as the coerced document: first one field per constraint, in
declaration order, named after the constraint, `NULL` or of the declared
type, equal to the coercion of the default when the document lacks the field
and a default is declared, and equal to the document's integer when the field
is declared INT; then, when extra fields are allowed, the undeclared fields in
document order with integers turned into doubles, also inside arrays and
nested documents. -/
theorem C7_decode_of_encode_is_coerced_document (ti : TableInfo) (doc : Document)
    (cells : List Cell) (h : ti.EncodeDocument doc = Except.ok cells) :
    ∃ declared : Document,
      NewEncodedDocument ti.FieldConstraints cells =
        some (declared ++
          (if ti.FieldConstraints.AllowExtraFields then
            (extraFields ti.FieldConstraints.Ordered doc).map (fun f => (f.1, f.2.untyped))
          else [])) ∧
      coerceDocument ti.FieldConstraints doc =
        Except.ok (declared ++
          (if ti.FieldConstraints.AllowExtraFields then
            (extraFields ti.FieldConstraints.Ordered doc).map (fun f => (f.1, f.2.untyped))
          else [])) ∧
      List.Forall₂
        (fun fc f =>
          f.1 = fc.Field ∧ (f.2 = Value.Null ∨ f.2.Kind = fc.Kind) ∧
          (∀ dv, getByField fc.Field doc = none → fc.DefaultValue = some dv →
            coerceField fc [(fc.Field, dv)] = Except.ok f) ∧
          (∀ i, fc.Kind = ValueType.IntegerValue →
            getByField fc.Field doc = some (Value.Integer i) → f.2 = Value.Integer i) ∧
          (∀ i, fc.Kind = ValueType.DoubleValue →
            getByField fc.Field doc = some (Value.Integer i) →
            f.2 = Value.Double (Float64.ofInt i)))
        ti.FieldConstraints.Ordered declared ∧
      (∀ i, (Value.Integer i).untyped = Value.Double (Float64.ofInt i)) ∧
      (∀ elems, (Value.Array elems).untyped = Value.Array (elems.map Value.untyped)) ∧
      (∀ fields, (Value.Document fields).untyped =
        Value.Document (fields.map (fun f => (f.1, f.2.untyped)))) := by
  unfold TableInfo.EncodeDocument EncodeDocument at h
  cases hc : coerceDocument ti.FieldConstraints doc with
  | error e => simp [hc] at h
  | ok fields =>
    simp only [hc, Except.ok.injEq] at h
    obtain ⟨declared, hdecl, hfields⟩ := coerceDocument_split _ _ _ hc
    have hdec := decodeDocument_layoutDocument ti.FieldConstraints doc fields [] hc
    rw [List.append_nil, h] at hdec
    refine ⟨declared, ?_, ?_, ?_, ?_, ?_, ?_⟩
    · simp only [NewEncodedDocument, hdec, hfields]
    · rw [← hfields]
    · refine (coerceFields_forall₂ _ _ _ hdecl).imp ?_
      intro fc f hf
      obtain ⟨hname, hkind⟩ := coerceField_name_kind fc doc f hf
      refine ⟨hname, hkind, ?_, ?_, ?_⟩
      · intro dv habsent hd
        rw [← coerceField_default fc doc dv habsent hd]
        exact hf
      · intro i hk hv
        rw [coerceField_integer fc doc i hk hv] at hf
        cases hf
        rfl
      · intro i hk hv
        rw [coerceField_integer_to_double fc doc i hk hv] at hf
        cases hf
        rfl
    · intro i
      rfl
    · intro elems
      simp only [Value.untyped, untypedElems_eq_map]
    · intro fields
      simp only [Value.untyped, untypedFields_eq_map]

theorem C7_decode_of_encode_is_coerced_document_witness :
    testTable.EncodeDocument testDoc = Except.ok testCells ∧
    ∃ declared : Document,
      NewEncodedDocument testTable.FieldConstraints testCells =
        some (declared ++
          (if testTable.FieldConstraints.AllowExtraFields then
            (extraFields testTable.FieldConstraints.Ordered testDoc).map
              (fun f => (f.1, f.2.untyped))
          else [])) ∧
      coerceDocument testTable.FieldConstraints testDoc =
        Except.ok (declared ++
          (if testTable.FieldConstraints.AllowExtraFields then
            (extraFields testTable.FieldConstraints.Ordered testDoc).map
              (fun f => (f.1, f.2.untyped))
          else [])) ∧
      List.Forall₂
        (fun fc f =>
          f.1 = fc.Field ∧ (f.2 = Value.Null ∨ f.2.Kind = fc.Kind) ∧
          (∀ dv, getByField fc.Field testDoc = none → fc.DefaultValue = some dv →
            coerceField fc [(fc.Field, dv)] = Except.ok f) ∧
          (∀ i, fc.Kind = ValueType.IntegerValue →
            getByField fc.Field testDoc = some (Value.Integer i) → f.2 = Value.Integer i) ∧
          (∀ i, fc.Kind = ValueType.DoubleValue →
            getByField fc.Field testDoc = some (Value.Integer i) →
            f.2 = Value.Double (Float64.ofInt i)))
        testTable.FieldConstraints.Ordered declared ∧
      (∀ i, (Value.Integer i).untyped = Value.Double (Float64.ofInt i)) ∧
      (∀ elems, (Value.Array elems).untyped = Value.Array (elems.map Value.untyped)) ∧
      (∀ fields, (Value.Document fields).untyped =
        Value.Document (fields.map (fun f => (f.1, f.2.untyped)))) :=
  ⟨rfl, C7_decode_of_encode_is_coerced_document testTable testDoc testCells rfl⟩

/-- `TestEncoding` (encoding_test.go:14-86): the document read back from the
blob is the document `want` of the test. -/
theorem TestEncoding_want :
    testTable.EncodeDocument testDoc = Except.ok testCells ∧
    NewEncodedDocument testTable.FieldConstraints testCells = some testWant :=
  ⟨rfl, rfl⟩

/-- `TestEncoding`, "with nested documents" (encoding_test.go:88-151): the
document read back from the blob is the document `want` of the subtest. -/
theorem TestEncoding_nested_want :
    ∃ cells, nestedTable.EncodeDocument nestedDoc = Except.ok cells ∧
      NewEncodedDocument nestedTable.FieldConstraints cells = some nestedWant :=
  ⟨_, rfl, rfl⟩

/-! ## Transaction IDs -/

theorem addUint64_one (n : Nat) (h : n + 1 < 2 ^ 64) : addUint64 n 1 = n + 1 := by
  unfold addUint64
  exact Nat.mod_eq_of_lt h

/-- With `attachedTxMu` free, a hook list runs to the end; a non-empty list
leaves no attached transaction and nothing else changes. -/
theorem runHooks_free (hs : List Hook) (db : Database) (hA : db.attachedTxMu = false) :
    runHooks hs db =
      Outcome.returned (if hs = [] then db else { db with attachedTransaction := none }) () := by
  induction hs generalizing db with
  | nil => simp [runHooks]
  | cons hk rest ih =>
    cases hk
    obtain ⟨cmu, cat, atx, amu, tmu, wmu, ids, once, runs⟩ := db
    simp only at hA
    subst hA
    cases atx with
    | none =>
      simp only [runHooks, Hook.run, releaseAttachedTx, Option.isSome]
      simp only [Bool.false_eq_true, if_false]
      rw [ih _ rfl]
      by_cases hr : rest = [] <;> simp [hr]
    | some tx =>
      simp only [runHooks, Hook.run, releaseAttachedTx, Option.isSome]
      simp only [Bool.false_eq_true, if_false, if_true]
      rw [ih _ rfl]
      by_cases hr : rest = [] <;> simp [hr]

theorem runHooks_counter (hs : List Hook) (db db1 : Database) (u : Unit)
    (h : runHooks hs db = Outcome.returned db1 u) :
    db1.TransactionIDs = db.TransactionIDs := by
  induction hs generalizing db with
  | nil => simp [runHooks] at h; rw [← h]
  | cons hk rest ih =>
    cases hk
    simp only [runHooks, Hook.run, releaseAttachedTx] at h
    by_cases hA : db.attachedTxMu = true
    · simp [hA] at h
    · by_cases hs : db.attachedTransaction.isSome = true
      · simp only [hA, hs, if_true, if_false] at h
        simpa using ih _ h
      · simp only [hA, hs, if_false] at h
        exact ih _ h

theorem Rollback_counter (tx : Transaction) (db db1 : Database) (e : Option Err)
    (h : tx.Rollback db = Outcome.returned db1 e) :
    db1.TransactionIDs = db.TransactionIDs := by
  unfold Transaction.Rollback at h
  cases hr : runHooks tx.OnRollbackHooks db with
  | blocked => simp [hr] at h
  | returned d u =>
    simp only [hr, Outcome.returned.injEq] at h
    have := runHooks_counter _ _ _ _ hr
    rw [← h.1, ← this]
    unfold Transaction.releaseWriteLock
    split <;> rfl

theorem Commit_counter (tx : Transaction) (se : Option Err) (db db1 : Database)
    (e : Option Err) (h : tx.Commit se db = Outcome.returned db1 e) :
    db1.TransactionIDs = db.TransactionIDs := by
  unfold Transaction.Commit at h
  cases se with
  | some err => simp at h; rw [← h.1]
  | none =>
    cases hr : runHooks tx.OnCommitHooks db with
    | blocked => simp [hr] at h
    | returned d u =>
      simp only [hr, Outcome.returned.injEq] at h
      have := runHooks_counter _ _ _ _ hr
      rw [← h.1, ← this]
      unfold Transaction.releaseWriteLock
      split <;> rfl

theorem BeginTx_record (db db1 : Database) (opts : Option TxOptions)
    (r : Except Err Transaction) (hlt : db.TransactionIDs + 1 < 2 ^ 64)
    (h : BeginTx db opts = Outcome.returned db1 r) :
    BeginRecord.stamped { before := db.TransactionIDs, result := r, after := db1.TransactionIDs } ∧
    db.TransactionIDs ≤ db1.TransactionIDs ∧ db1.TransactionIDs ≤ db.TransactionIDs + 1 ∧
    ∀ tx, r = Except.ok tx → tx.ID = db.TransactionIDs + 1 ∧ db1.TransactionIDs = tx.ID := by
  rcases BeginTx_returned db db1 opts r h with ⟨tx, hr, -, hid, hc, -⟩ | ⟨hr, -, hc, -⟩
  · rw [addUint64_one _ hlt] at hid
    subst hr
    refine ⟨⟨hid, hc⟩, by omega, by omega, ?_⟩
    intro t ht
    cases ht
    exact ⟨hid, hc⟩
  · subst hr
    refine ⟨hc, by omega, by omega, ?_⟩
    intro t ht
    cases ht

theorem RunOK_stay (db : Database) (n : Nat) : RunOK db n (db, []) := by
  simp [RunOK, createdIDs]

theorem RunOK_skip (db db1 : Database) (n : Nat) (out : Database × List BeginRecord)
    (hc : db1.TransactionIDs = db.TransactionIDs) (h : RunOK db1 n out) :
    RunOK db (n + 1) out := by
  obtain ⟨h1, h2, h3, h4, h5⟩ := h
  rw [hc] at h1 h2 h4
  exact ⟨h1, by omega, h3, h4, h5⟩

theorem RunOK_begin (db db1 : Database) (opts : Option TxOptions) (n : Nat)
    (r : Except Err Transaction) (out : Database × List BeginRecord)
    (hlt : db.TransactionIDs + 1 < 2 ^ 64)
    (hb : BeginTx db opts = Outcome.returned db1 r) (h : RunOK db1 n out) :
    RunOK db (n + 1)
      (out.1, { before := db.TransactionIDs, result := r, after := db1.TransactionIDs } :: out.2) := by
  obtain ⟨h1, h2, h3, h4, h5⟩ := h
  obtain ⟨hs, hle, hge, hid⟩ := BeginTx_record db db1 opts r hlt hb
  refine ⟨by simp only; omega, by simp only; omega, ?_, ?_, ?_⟩
  · intro x hx
    rcases List.mem_cons.mp hx with rfl | hx
    · exact hs
    · exact h3 x hx
  · cases r with
    | error e =>
      intro i hi
      have hi1 : i ∈ createdIDs out.2 := by
        simpa [createdIDs, BeginRecord.created] using hi
      have := h4 i hi1
      omega
    | ok tx =>
      intro i hi
      have hi1 : i = tx.ID ∨ i ∈ createdIDs out.2 := by
        simpa [createdIDs, BeginRecord.created] using hi
      obtain ⟨e1, e2⟩ := hid tx rfl
      rcases hi1 with rfl | hi1
      · omega
      · have := h4 i hi1
        omega
  · cases r with
    | error e =>
      simpa [createdIDs, BeginRecord.created] using h5
    | ok tx =>
      obtain ⟨e1, e2⟩ := hid tx rfl
      have hcons : ∀ (b a : Nat), createdIDs (BeginRecord.mk b (Except.ok tx) a :: out.2) =
          tx.ID :: createdIDs out.2 := by
        intro b a
        simp [createdIDs, BeginRecord.created]
      rw [hcons]
      refine List.Pairwise.cons ?_ h5
      intro i hi
      have := h4 i hi
      omega

theorem runEvents_spec (evs : List Event) :
    ∀ db : Database, db.TransactionIDs + evs.length < 2 ^ 64 →
      RunOK db evs.length (runEvents evs db) := by
  induction evs with
  | nil => intro db _; exact RunOK_stay db 0
  | cons ev rest ih =>
    intro db hlt
    simp only [List.length_cons] at hlt ⊢
    cases ev with
    | Begin w =>
      simp only [runEvents]
      cases hb : Begin db w with
      | blocked => exact RunOK_stay db _
      | returned db1 r =>
        have hb1 : BeginTx db (some { ReadOnly := !w, Attached := false }) =
            Outcome.returned db1 r := hb
        have hr := BeginTx_record db db1 _ r (by omega) hb1
        exact RunOK_begin db db1 _ _ r _ (by omega) hb1 (ih db1 (by omega))
    | BeginTx opts =>
      simp only [runEvents]
      cases hb : BeginTx db opts with
      | blocked => exact RunOK_stay db _
      | returned db1 r =>
        have hr := BeginTx_record db db1 _ r (by omega) hb
        exact RunOK_begin db db1 _ _ r _ (by omega) hb (ih db1 (by omega))
    | Commit tx se =>
      simp only [runEvents]
      cases hb : tx.Commit se db with
      | blocked => exact RunOK_stay db _
      | returned db1 e =>
        have hc := Commit_counter tx se db db1 e hb
        exact RunOK_skip db db1 _ _ hc (ih db1 (by omega))
    | Rollback tx =>
      simp only [runEvents]
      cases hb : tx.Rollback db with
      | blocked => exact RunOK_stay db _
      | returned db1 e =>
        have hc := Rollback_counter tx db db1 e hb
        exact RunOK_skip db db1 _ _ hc (ih db1 (by omega))

/-- C8: in every run of `Begin`, `BeginTx`, `Commit` and `Rollback` calls that
keeps the counter below `2 ^ 64`, each begin call that creates a transaction
gives it the ID `TransactionIDs + 1` and leaves the counter at that ID, each
begin call that fails leaves the counter as it was, and the IDs of the created
transactions are strictly increasing in creation order, hence pairwise
distinct. -/
theorem C8_transaction_ids_strictly_increase (db : Database) (evs : List Event)
    (h : db.TransactionIDs + evs.length < 2 ^ 64) :
    (∀ r ∈ (runEvents evs db).2,
      match r.result with
      | Except.ok tx => tx.ID = r.before + 1 ∧ r.after = tx.ID
      | Except.error _ => r.after = r.before) ∧
    List.Pairwise (fun a b => a < b) (createdIDs (runEvents evs db).2) ∧
    (createdIDs (runEvents evs db).2).Nodup := by
  obtain ⟨-, -, h3, -, h5⟩ := runEvents_spec evs db h
  refine ⟨fun r hr => h3 r hr, h5, ?_⟩
  exact h5.imp (fun hab => Nat.ne_of_lt hab)

theorem C8_transaction_ids_strictly_increase_witness :
    zero.TransactionIDs + sampleRun.length < 2 ^ 64 ∧
    (∀ r ∈ (runEvents sampleRun zero).2,
      match r.result with
      | Except.ok tx => tx.ID = r.before + 1 ∧ r.after = tx.ID
      | Except.error _ => r.after = r.before) ∧
    List.Pairwise (fun a b => a < b) (createdIDs (runEvents sampleRun zero).2) ∧
    (createdIDs (runEvents sampleRun zero).2).Nodup :=
  ⟨by decide, C8_transaction_ids_strictly_increase zero sampleRun (by decide)⟩

/-- The sample run, computed: three transactions with IDs 1, 2, 3, and one
failed begin that left the counter at 2. -/
theorem sampleRun_records :
    (runEvents sampleRun zero).2.map (fun r => (r.before, r.after)) =
      [(0, 1), (1, 2), (2, 2), (2, 3)] ∧
    createdIDs (runEvents sampleRun zero).2 = [1, 2, 3] := by
  decide

/-! ## Close -/

theorem Close_of_done (env : CloseEnv) (db : Database) (h : db.closeOnce = true) :
    Close env db = Outcome.returned db none := by
  simp [Close, h]

theorem closeTimes_of_done (env : CloseEnv) (n : Nat) (db : Database)
    (h : db.closeOnce = true) :
    closeTimes env n db = Outcome.returned db (List.replicate n none) := by
  induction n with
  | zero => rfl
  | succ k ih => simp [closeTimes, Close_of_done env db h, ih, List.replicate_succ]

/-- With `attachedTxMu` and the writer side of `catalogMu` free, and
`writetxmu` free or held by the attached transaction, `closeDatabase` returns,
having been entered once. -/
theorem closeDatabase_returns (env : CloseEnv) (db : Database)
    (hA : db.attachedTxMu = false) (hC : db.catalogMu.writer = false)
    (hW : db.writetxmu = false ∨
      ∃ tx, db.attachedTransaction = some tx ∧ tx.WriteTxMu = true) :
    ∃ db1 e1, closeDatabase env db = Outcome.returned db1 e1 ∧
      db1.closeRuns = db.closeRuns + 1 ∧ db1.closeOnce = db.closeOnce := by
  obtain ⟨⟨cw, cr⟩, cat, atx, amu, tmu, wmu, ids, once, runs⟩ := db
  simp only at hA hC hW
  subst hA hC
  cases h1 : releaseSequences env env.ListSequences <;> cases h2 : env.SessionCommit <;>
    cases atx with
    | none =>
      have hw : wmu = false := by
        rcases hW with h | ⟨tx, h, -⟩
        · exact h
        · cases h
      subst hw
      simp [closeDatabase, GetAttachedTx, beginTx, Catalog, TxOptions.zero, h1, h2]
    | some tx =>
      obtain ⟨sess, wr, id, c, wl, rh, ch⟩ := tx
      have hw : wmu = false ∨ wl = true := by
        rcases hW with h | ⟨tx, h, h3⟩
        · exact Or.inl h
        · cases h
          exact Or.inr h3
      by_cases hr : rh = [] <;> cases wl <;> cases wmu <;>
        simp [closeDatabase, GetAttachedTx, Transaction.Rollback, runHooks_free,
          Transaction.releaseWriteLock, beginTx, Catalog, TxOptions.zero, h1, h2, hr] at hw ⊢

/-- C9: on a database whose `closeOnce` has not fired, with `attachedTxMu` and
the writer side of `catalogMu` free and `writetxmu` free or held by the
attached transaction, the first `Close` returns after entering `closeDatabase`
once; each of the `n` later calls returns nil and leaves the database exactly
as the first call left it, so `closeDatabase` is entered once in the whole
run, whatever `e1` the first call returned. -/
theorem C9_close_enters_closeDatabase_once (env : CloseEnv) (db : Database) (n : Nat)
    (hOnce : db.closeOnce = false)
    (hA : db.attachedTxMu = false) (hC : db.catalogMu.writer = false)
    (hW : db.writetxmu = false ∨
      ∃ tx, db.attachedTransaction = some tx ∧ tx.WriteTxMu = true) :
    ∃ db1 e1, Close env db = Outcome.returned db1 e1 ∧
      db1.closeRuns = db.closeRuns + 1 ∧
      Close env db1 = Outcome.returned db1 none ∧
      closeTimes env (n + 1) db = Outcome.returned db1 (e1 :: List.replicate n none) := by
  obtain ⟨d, e1, hd, hruns, -⟩ := closeDatabase_returns env db hA hC hW
  have hclose : Close env db = Outcome.returned { d with closeOnce := true } e1 := by
    simp [Close, hOnce, hd]
  refine ⟨{ d with closeOnce := true }, e1, hclose, hruns, Close_of_done env _ rfl, ?_⟩
  have hrest := closeTimes_of_done env n { d with closeOnce := true } rfl
  simp only [closeTimes, hclose, hrest]

theorem C9_close_enters_closeDatabase_once_witness :
    sampleAttachedDb.closeOnce = false ∧
    sampleAttachedDb.attachedTxMu = false ∧
    sampleAttachedDb.catalogMu.writer = false ∧
    (sampleAttachedDb.writetxmu = false ∨
      ∃ tx, sampleAttachedDb.attachedTransaction = some tx ∧ tx.WriteTxMu = true) ∧
    ∃ db1 e1, Close sampleCloseEnv sampleAttachedDb = Outcome.returned db1 e1 ∧
      db1.closeRuns = sampleAttachedDb.closeRuns + 1 ∧
      Close sampleCloseEnv db1 = Outcome.returned db1 none ∧
      closeTimes sampleCloseEnv (2 + 1) sampleAttachedDb =
        Outcome.returned db1 (e1 :: List.replicate 2 none) :=
  ⟨rfl, rfl, rfl, Or.inr ⟨sampleAttachedWriter, rfl, rfl⟩,
    C9_close_enters_closeDatabase_once sampleCloseEnv sampleAttachedDb 2 rfl rfl rfl
      (Or.inr ⟨sampleAttachedWriter, rfl, rfl⟩)⟩

/-- The sample close, computed: the first call returns the store's error, the
two later calls return nil, and `closeDatabase` was entered once. -/
theorem sampleClose_results :
    ∃ db1, closeTimes sampleCloseEnv 3 sampleAttachedDb =
        Outcome.returned db1 [some (Err.New "pebble: closed"), none, none] ∧
      db1.closeRuns = 1 ∧ db1.attachedTransaction = none ∧ db1.writetxmu = false :=
  ⟨_, rfl, rfl, rfl, rfl⟩

/-! ## The attached pointer and the release hook -/

/-- C10: a `BeginTx` that returns a transaction, when `opts.Attached` is set,
leaves that transaction as the attached one and its `OnCommitHooks` and
`OnRollbackHooks` are each the release hook; when `opts.Attached` is not set, as
in every `Begin(writable)`, the attached pointer is as before and both hook
lists are empty. The release hook, run with `attachedTxMu` free, returns with
the attached pointer nil, and run again it returns leaving the database as it
is. -/
theorem C10_attached_pointer_and_release_hook (db db1 : Database) (opts : Option TxOptions)
    (tx : Transaction) (h : BeginTx db opts = Outcome.returned db1 (Except.ok tx)) :
    (if (opts.getD TxOptions.zero).Attached then
      db1.attachedTransaction = some tx ∧
      tx.OnCommitHooks = [Hook.releaseAttachedTx] ∧
      tx.OnRollbackHooks = [Hook.releaseAttachedTx]
    else
      db1.attachedTransaction = db.attachedTransaction ∧
      tx.OnCommitHooks = [] ∧ tx.OnRollbackHooks = []) ∧
    (∀ (writable : Bool) (d1 : Database) (t : Transaction),
      Begin db writable = Outcome.returned d1 (Except.ok t) →
      d1.attachedTransaction = db.attachedTransaction ∧
      t.OnCommitHooks = [] ∧ t.OnRollbackHooks = []) ∧
    (∀ d : Database, d.attachedTxMu = false →
      ∃ d1, Hook.releaseAttachedTx.run d = Outcome.returned d1 () ∧
        d1.attachedTransaction = none ∧
        Hook.releaseAttachedTx.run d1 = Outcome.returned d1 ()) := by
  refine ⟨?_, ?_, ?_⟩
  · rcases BeginTx_returned db db1 opts _ h with ⟨t, ht, -, -, -, hh⟩ | ⟨ht, -⟩
    · cases ht
      exact hh
    · cases ht
  · intro w d1 t hb
    rcases BeginTx_returned db d1 _ _ hb with ⟨t1, ht, -, -, -, hh⟩ | ⟨ht, -⟩
    · cases ht
      simpa using hh
    · cases ht
  · intro d hd
    obtain ⟨cmu, cat, atx, amu, tmu, wmu, ids, once, runs⟩ := d
    simp only at hd
    subst hd
    cases atx <;> simp [Hook.run, releaseAttachedTx]

theorem C10_attached_pointer_and_release_hook_witness :
    BeginTx zero (some { ReadOnly := false, Attached := true }) =
      Outcome.returned sampleAttachedDb (Except.ok sampleAttachedWriter) ∧
    (if ((some { ReadOnly := false, Attached := true } : Option TxOptions).getD
        TxOptions.zero).Attached then
      sampleAttachedDb.attachedTransaction = some sampleAttachedWriter ∧
      sampleAttachedWriter.OnCommitHooks = [Hook.releaseAttachedTx] ∧
      sampleAttachedWriter.OnRollbackHooks = [Hook.releaseAttachedTx]
    else
      sampleAttachedDb.attachedTransaction = zero.attachedTransaction ∧
      sampleAttachedWriter.OnCommitHooks = [] ∧ sampleAttachedWriter.OnRollbackHooks = []) ∧
    (∀ (writable : Bool) (d1 : Database) (t : Transaction),
      Begin zero writable = Outcome.returned d1 (Except.ok t) →
      d1.attachedTransaction = zero.attachedTransaction ∧
      t.OnCommitHooks = [] ∧ t.OnRollbackHooks = []) ∧
    (∀ d : Database, d.attachedTxMu = false →
      ∃ d1, Hook.releaseAttachedTx.run d = Outcome.returned d1 () ∧
        d1.attachedTransaction = none ∧
        Hook.releaseAttachedTx.run d1 = Outcome.returned d1 ()) :=
  ⟨by decide,
    C10_attached_pointer_and_release_hook zero sampleAttachedDb
      (some { ReadOnly := false, Attached := true }) sampleAttachedWriter (by decide)⟩

end database
